import Mathlib

/-!
# Local_OTA: remote log hub and OTA receiver

A shallow embedding of `main/wifi_logger.c` (the log hook `wifi_log_vprintf`
and the listener `tcp_server_task`) and of `main/ota_server.c` (the listener
`ota_task`), followed by the properties proved about them.

Conventions of the embedding

* A byte is a natural number; the newline character is `10`.
* The static array `s_log_buf[LOG_BUF_SIZE]` is a list of exactly
  `LOG_BUF_SIZE` bytes.  Every access to it (`memcpy`, `memmove`, `memchr`,
  the source range of `send`) is bounds-checked against `LOG_BUF_SIZE`: an
  access outside the array makes the embedded function return `none`.
* Calls that leave the program (`send`, the original console sink, the flash
  API, `close`, `esp_restart`) are recorded, in program order, in a list of
  events.  `send` is taken to transmit all the bytes it is given.
* Calls of the hook and the statements of `tcp_server_task` that set and
  reset it run one after the other; none starts in the middle of another.
* `s_log_buf_len + len` is a `size_t` sum of a value below `2^32` that is
  never written above `LOG_BUF_SIZE - 1` and of a positive `int`; it cannot
  wrap, and is a sum of natural numbers here.
-/

namespace LocalOTA

/-! ## The log hub (`wifi_logger.c`, lines 34-94) -/

abbrev Byte := Nat

/-- The character searched for by `memchr`. -/
def NEWLINE : Byte := 10

/-- Source: `#define LOG_BUF_SIZE 256`. -/
def LOG_BUF_SIZE : Nat := 256

/-- The values a non-null `vprintf_like_t` takes in this program: a console
function of the platform (identified by a number) or the hook of this file. -/
inductive Sink where
  | console (f : Nat)
  | wifi_log_vprintf
  deriving DecidableEq

/-- Observable actions of the hub, in program order. -/
inductive Event where
  | console (f : Nat) (text : List Byte)
  | send (sock : Int) (data : List Byte)
  deriving DecidableEq

/-- Source: `static char s_log_buf[LOG_BUF_SIZE]`. -/
abbrev LogBuf := { l : List Byte // l.length = LOG_BUF_SIZE }

/-- The process-wide variables of the hub, together with the vprintf hook
held by the logging library (what `esp_log_set_vprintf` swaps). -/
structure HubState where
  log_vprintf : Option Sink
  original_log_function : Option Sink
  s_remote_log_socket : Int
  s_log_buf : LogBuf
  s_log_buf_len : Nat
  deriving DecidableEq

/-- What one call of `wifi_log_vprintf` leaves behind: the new variables, the
actions performed and the returned `int`. -/
structure EmitResult where
  state : HubState
  events : List Event
  ret : Int
  deriving DecidableEq

/-- Read `n` bytes of the array starting at offset `off`. -/
def bufRead (b : LogBuf) (off n : Nat) : Option (List Byte) :=
  if off + n ≤ LOG_BUF_SIZE then some ((b.1.drop off).take n) else none

/-- Write `src` into the array at offset `off` (`memcpy` / `memmove` with the
source already read). -/
def memcpy (b : LogBuf) (off : Nat) (src : List Byte) : Option LogBuf :=
  if h : off + src.length ≤ LOG_BUF_SIZE then
    some ⟨b.1.take off ++ src ++ b.1.drop (off + src.length), by
      have hb := b.2
      simp only [List.length_append, List.length_take, List.length_drop, hb]
      omega⟩
  else none

/-- Index of the first occurrence of `c` in `p`, as `memchr` over the whole
of `p`. -/
def memchr : List Byte → Byte → Option Nat
  | [], _ => none
  | b :: bs, c => if b = c then some 0 else (memchr bs c).map (· + 1)

/-- Lines 53-67: append the fragment, or flush the buffer and then store or
send the fragment. Returns the array, the new `s_log_buf_len` and the sends. -/
def append_fragment (sock : Int) (buf : LogBuf) (buf_len : Nat) (temp_buf : List Byte) :
    Option (LogBuf × Nat × List Event) :=
  let len := temp_buf.length
  if buf_len + len < LOG_BUF_SIZE then
    (memcpy buf buf_len temp_buf).map fun b => (b, buf_len + len, [])
  else
    (bufRead buf 0 buf_len).bind fun old =>
      if len < LOG_BUF_SIZE then
        (memcpy buf 0 temp_buf).map fun b => (b, len, [Event.send sock old])
      else
        some (buf, 0, [Event.send sock old, Event.send sock temp_buf])

/-- Lines 70-76: the `while (memchr ...)` loop. `off` is `buf_ptr - s_log_buf`;
the result is the final `off` and the sends. The first argument bounds the
number of iterations. -/
def send_lines (sock : Int) (buf : LogBuf) (buf_len : Nat) :
    Nat → Nat → List Event → Option (Nat × List Event)
  | 0, _, _ => none
  | fuel + 1, off, evs =>
    (bufRead buf off (buf_len - off)).bind fun window =>
      match memchr window NEWLINE with
      | none => some (off, evs)
      | some i =>
        (bufRead buf off (i + 1)).bind fun line =>
          send_lines sock buf buf_len fuel (off + (i + 1)) (evs ++ [Event.send sock line])

/-- Lines 79-81: move the partial line to the front of the array. -/
def move_remaining (buf : LogBuf) (buf_len off : Nat) : Option (LogBuf × Nat) :=
  let remaining_len := buf_len - off
  (bufRead buf off remaining_len).bind fun rest =>
    (memcpy buf 0 rest).map fun b => (b, remaining_len)

/-- Lines 48-85: the remote part of the hook, for a fragment of positive
length. -/
def remote_part (sock : Int) (buf : LogBuf) (buf_len : Nat) (temp_buf : List Byte) :
    Option (LogBuf × Nat × List Event) :=
  (append_fragment sock buf buf_len temp_buf).bind fun (b1, len1, ev1) =>
    (send_lines sock b1 len1 (len1 + 1) 0 []).bind fun (off, ev2) =>
      (move_remaining b1 len1 off).map fun (b2, len2) => (b2, len2, ev1 ++ ev2)

/-- Lines 44-46: the call of the original sink. A hook that is its own
original would call itself without end; that call has no result. -/
def console_part (orig : Option Sink) (text : List Byte) : Option (List Event) :=
  match orig with
  | none => some []
  | some (Sink.console f) => some [Event.console f text]
  | some Sink.wifi_log_vprintf => none

/-- Source: `wifi_log_vprintf`. `text` is the formatted message (what
`vasprintf` stores in `temp_buf`, `len` being its length). -/
def wifi_log_vprintf (s : HubState) (text : List Byte) : Option EmitResult :=
  (console_part s.original_log_function text).bind fun ev0 =>
    if s.s_remote_log_socket ≠ -1 ∧ 0 < text.length then
      (remote_part s.s_remote_log_socket s.s_log_buf s.s_log_buf_len text).map
        fun (b, n, ev) =>
          { state := { s with s_log_buf := b, s_log_buf_len := n },
            events := ev0 ++ ev, ret := text.length }
    else
      some { state := s, events := ev0, ret := text.length }

/-- One log call of the program: the logging library passes the formatted
text to the hook currently set. Calling a null hook has no result. -/
def log_call (s : HubState) (text : List Byte) : Option EmitResult :=
  match s.log_vprintf with
  | none => none
  | some (Sink.console f) =>
    some { state := s, events := [Event.console f text], ret := text.length }
  | some Sink.wifi_log_vprintf => wifi_log_vprintf s text

/-- The library call `esp_log_set_vprintf`: set the hook, return the
previous one. -/
def esp_log_set_vprintf (s : HubState) (f : Option Sink) : HubState × Option Sink :=
  ({ s with log_vprintf := f }, s.log_vprintf)

/-- Lines 233-235 of `tcp_server_task`: reset the buffer, record the socket,
set the hook and keep the previous one. -/
def install (s : HubState) (sock : Int) : HubState :=
  let s1 := { s with s_log_buf_len := 0 }
  let s2 := { s1 with s_remote_log_socket := sock }
  let (s3, prev) := esp_log_set_vprintf s2 (some Sink.wifi_log_vprintf)
  { s3 with original_log_function := prev }

/-- Lines 257-258 of `tcp_server_task`: put the kept hook back and forget
the socket. -/
def restore (s : HubState) : HubState :=
  let (s1, _) := esp_log_set_vprintf s s.original_log_function
  { s1 with s_remote_log_socket := -1 }

/-- A sequence of calls of `wifi_log_vprintf`, events concatenated. -/
def emit_all : HubState → List (List Byte) → Option (HubState × List Event)
  | s, [] => some (s, [])
  | s, t :: ts =>
    (wifi_log_vprintf s t).bind fun r =>
      (emit_all r.state ts).map fun (s2, evs) => (s2, r.events ++ evs)

/-- A sequence of log calls of the program, events concatenated. -/
def log_all : HubState → List (List Byte) → Option (HubState × List Event)
  | s, [] => some (s, [])
  | s, t :: ts =>
    (log_call s t).bind fun r =>
      (log_all r.state ts).map fun (s2, evs) => (s2, r.events ++ evs)

/-- The bytes given to `send`, in order. -/
def sent_bytes : List Event → List Byte
  | [] => []
  | Event.send _ d :: es => d ++ sent_bytes es
  | Event.console _ _ :: es => sent_bytes es

/-- The data of the `send` calls, one entry per call. -/
def sends : List Event → List (Int × List Byte)
  | [] => []
  | Event.send k d :: es => (k, d) :: sends es
  | Event.console _ _ :: es => sends es

/-- The texts given to console functions, one entry per call. -/
def console_output : List Event → List (Nat × List Byte)
  | [] => []
  | Event.console f t :: es => (f, t) :: console_output es
  | Event.send _ _ :: es => console_output es

/-- The bytes of the array that are in use: its first `s_log_buf_len`. -/
def buffered (s : HubState) : List Byte := s.s_log_buf.1.take s.s_log_buf_len

/-- An array of zeros. -/
def zeroBuf : LogBuf := ⟨List.replicate LOG_BUF_SIZE 0, by simp⟩

/-- The variables at program start: console function `f` is the hook. -/
def initState (f : Nat) : HubState :=
  { log_vprintf := some (Sink.console f), original_log_function := none,
    s_remote_log_socket := -1, s_log_buf := zeroBuf, s_log_buf_len := 0 }

def hello : List Byte := [104, 101, 108, 108, 111, 10]
def world : List Byte := [119, 111, 114, 108, 100, 10]

/-- Spec-level splitting of a byte string into its complete lines (each up
to and including its newline) and the trailing incomplete line; `cur` is the
line being read. -/
def split_lines_from (cur : List Byte) : List Byte → List (List Byte) × List Byte
  | [] => ([], cur)
  | b :: bs =>
    if b = NEWLINE then
      ((cur ++ [b]) :: (split_lines_from [] bs).1, (split_lines_from [] bs).2)
    else split_lines_from (cur ++ [b]) bs

/-- Spec-level: complete lines and trailing incomplete line of `l`. -/
def split_lines (l : List Byte) : List (List Byte) × List Byte := split_lines_from [] l

/-- Spec-level policy of the remote part, with the thresholds of the code:
from the bytes in use `old` and a fragment `text`, the data of the sends in
order, and the bytes kept in the buffer. -/
def remote_policy (old text : List Byte) : List (List Byte) × List Byte :=
  if old.length + text.length < LOG_BUF_SIZE then split_lines (old ++ text)
  else if text.length < LOG_BUF_SIZE then (old :: (split_lines text).1, (split_lines text).2)
  else ([old, text], [])

/-- The hub states the program reaches when its parts run one after the
other, from program start with console function `f` as the hook of the
logging library. The flag tells whether a log client is connected.
`tcp_server_task` alternates lines 233-235 (`install`, on accept) and lines
257-258 (`restore`, on disconnect); in between, any task may log. -/
inductive Reachable (f : Nat) : Bool → HubState → Prop where
  | start : Reachable f false (initState f)
  | log (b : Bool) (s : HubState) (text : List Byte) (r : EmitResult) :
      Reachable f b s → log_call s text = some r → Reachable f b r.state
  | accept (s : HubState) (sock : Int) :
      Reachable f false s → 0 ≤ sock → Reachable f true (install s sock)
  | disconnect (s : HubState) :
      Reachable f true s → Reachable f false (restore s)

/-! ## The OTA receiver (`ota_server.c`)

What the platform answers is an input of the embedding: the partition found,
whether `esp_ota_begin`, `malloc`, each `esp_ota_write`, `esp_ota_end` and
`esp_ota_set_boot_partition` succeed, and what `recv` returns.  `recv` blocks
until it has a result; the reads of one connection are the positive reads in
order, followed by the first non-positive one.  `total` is a `size_t`: its
sum is taken modulo `2^32`, the width of `size_t` on the target, and the log
lines print `(int)total`, its low 32 bits read as a signed number (the same
value on a host whose `size_t` is 64 bits wide). -/

/-- Source: `#define OTA_RECV_BUF 4096`. -/
def OTA_RECV_BUF : Nat := 4096

/-- The number of values of a `size_t` on the target. -/
def SIZE_T_MOD : Nat := 4294967296

/-- The cast `(int)total` of a `size_t`: the low 32 bits, read as a signed
32-bit number. -/
def int_of_size (total : Nat) : Int :=
  if total % 4294967296 < 2147483648 then ((total % 4294967296 : Nat) : Int)
  else ((total % 4294967296 : Nat) : Int) - 4294967296

/-- The fields of `esp_partition_t` the program reads. -/
structure Partition where
  subtype : Nat
  address : Nat
  deriving DecidableEq

/-- The log lines of `ota_task`. -/
inductive OtaLog where
  | unable_to_create_socket
  | unable_to_bind
  | error_during_listen
  | server_listening
  | unable_to_accept
  | client_connected
  | no_valid_partition
  | writing_to_partition (p : Partition)
  | begin_failed
  | failed_to_allocate
  | write_failed_at (total : Int)
  | recv_failed
  | end_failed
  | set_boot_partition_failed
  | update_successful (total : Int)
  deriving DecidableEq

/-- The calls `ota_task` makes, in program order. -/
inductive OtaEvent where
  | log (m : OtaLog)
  | setsockopt (sock : Int)
  | accept (listen_sock : Int)
  | get_next_update_partition
  | ota_begin (p : Partition)
  | malloc (n : Nat)
  | recv (sock : Int)
  | ota_write (handle : Nat) (data : List Byte)
  | free
  | ota_end (handle : Nat)
  | set_boot_partition (p : Partition)
  | shutdown (sock : Int)
  | close (sock : Int)
  | delay (ms : Nat)
  | restart
  | task_delete
  deriving DecidableEq

/-- One positive result of `recv(sock, buffer, OTA_RECV_BUF, 0)`: the bytes
placed in `buffer` (their number is the returned `len`), and whether
`esp_ota_write` of them returns `ESP_OK`. -/
structure Read where
  data : List Byte
  write_ok : Bool
  pos : 0 < data.length
  le : data.length ≤ OTA_RECV_BUF

/-- The non-positive result of `recv` that ends the reads of a connection:
`0` (peer closed) or a negative value (socket error). -/
inductive RecvEnd where
  | closed
  | error
  deriving DecidableEq

/-- The value of `len` for the last `recv`. -/
def RecvEnd.len : RecvEnd → Int
  | RecvEnd.closed => 0
  | RecvEnd.error => -1

/-- What the platform and the peer do during one accepted connection. -/
structure OtaConn where
  update_partition : Option Partition
  begin_handle : Option Nat
  malloc_ok : Bool
  reads : List Read
  last : RecvEnd
  end_ok : Bool
  set_boot_ok : Bool

/-- Variables after the `while ((len = recv(...)) > 0)` loop, and its calls. -/
structure LoopResult where
  events : List OtaEvent
  total : Nat
  write_failed : Bool
  len : Int
  deriving DecidableEq

/-- Lines 104-111: the receive loop. -/
def recv_loop (sock : Int) (handle : Nat) (last : RecvEnd) : List Read → Nat → LoopResult
  | [], total =>
    { events := [OtaEvent.recv sock], total := total, write_failed := false, len := last.len }
  | r :: rs, total =>
    if r.write_ok then
      let rest := recv_loop sock handle last rs ((total + r.data.length) % SIZE_T_MOD)
      { rest with events := OtaEvent.recv sock :: OtaEvent.ota_write handle r.data :: rest.events }
    else
      { events := [OtaEvent.recv sock, OtaEvent.ota_write handle r.data,
                   OtaEvent.log (OtaLog.write_failed_at (int_of_size total))],
        total := total, write_failed := true, len := r.data.length }

/-- How the handling of one connection ends: its calls, whether
`esp_restart` was reached, and the boot partition afterwards. -/
structure ConnResult where
  events : List OtaEvent
  restarted : Bool
  boot : Partition
  deriving DecidableEq

/-- Lines 74-142 of `ota_task`: one accepted connection on socket `sock`,
with `boot` the boot partition before it. `esp_ota_set_boot_partition`
returning `ESP_OK` makes its argument the boot partition; no other call of
the handler changes it. -/
def handle_connection (sock : Int) (c : OtaConn) (boot : Partition) : ConnResult :=
  match c.update_partition with
  | none =>
    { events := [OtaEvent.get_next_update_partition, OtaEvent.log OtaLog.no_valid_partition,
                 OtaEvent.shutdown sock, OtaEvent.close sock],
      restarted := false, boot := boot }
  | some p =>
    let ev0 := [OtaEvent.get_next_update_partition,
                OtaEvent.log (OtaLog.writing_to_partition p), OtaEvent.ota_begin p]
    match c.begin_handle with
    | none =>
      { events := ev0 ++ [OtaEvent.log OtaLog.begin_failed,
                          OtaEvent.shutdown sock, OtaEvent.close sock],
        restarted := false, boot := boot }
    | some h =>
      if !c.malloc_ok then
        { events := ev0 ++ [OtaEvent.malloc OTA_RECV_BUF, OtaEvent.log OtaLog.failed_to_allocate,
                            OtaEvent.ota_end h, OtaEvent.shutdown sock, OtaEvent.close sock],
          restarted := false, boot := boot }
      else
        let loop := recv_loop sock h c.last c.reads 0
        let ev1 := ev0 ++ [OtaEvent.malloc OTA_RECV_BUF] ++ loop.events ++ [OtaEvent.free]
        -- if (len < 0)
        let (ev2, failed2) :=
          if loop.len < 0 then (ev1 ++ [OtaEvent.log OtaLog.recv_failed], true)
          else (ev1, loop.write_failed)
        -- if (!write_failed) ... else esp_ota_end
        let (ev3, failed3) :=
          if !failed2 then
            if !c.end_ok then
              (ev2 ++ [OtaEvent.ota_end h, OtaEvent.log OtaLog.end_failed], true)
            else (ev2 ++ [OtaEvent.ota_end h], failed2)
          else (ev2 ++ [OtaEvent.ota_end h], failed2)
        if !failed3 then
          if !c.set_boot_ok then
            { events := ev3 ++ [OtaEvent.set_boot_partition p,
                                OtaEvent.log OtaLog.set_boot_partition_failed,
                                OtaEvent.shutdown sock, OtaEvent.close sock],
              restarted := false, boot := boot }
          else
            { events := ev3 ++ [OtaEvent.set_boot_partition p,
                                OtaEvent.log (OtaLog.update_successful (int_of_size loop.total)),
                                OtaEvent.shutdown sock, OtaEvent.close sock,
                                OtaEvent.delay 1000, OtaEvent.restart],
              restarted := true, boot := p }
        else
          { events := ev3 ++ [OtaEvent.shutdown sock, OtaEvent.close sock],
            restarted := false, boot := boot }

/-- One turn of the accept loop: the value `accept` returns and, when a
connection is accepted, what happens on it. -/
structure OtaAttempt where
  sock : Int
  conn : OtaConn

/-- How a listener task stands at the end of its inputs: its task deleted,
the device restarted, or waiting in `accept`. -/
inductive TaskEnd where
  | deleted
  | restarted
  | accepting
  deriving DecidableEq

/-- Calls, end and boot partition of a run of `ota_task`. -/
structure OtaRun where
  events : List OtaEvent
  ending : TaskEnd
  boot : Partition
  deriving DecidableEq

/-- Lines 59-147: the `while (1)` accept loop and what follows its `break`. -/
def ota_accept_loop (listen_sock : Int) : List OtaAttempt → Partition → OtaRun
  | [], boot =>
    { events := [OtaEvent.accept listen_sock], ending := TaskEnd.accepting, boot := boot }
  | a :: rest, boot =>
    if a.sock < 0 then
      { events := [OtaEvent.accept listen_sock, OtaEvent.log OtaLog.unable_to_accept,
                   OtaEvent.close listen_sock, OtaEvent.task_delete],
        ending := TaskEnd.deleted, boot := boot }
    else
      let r := handle_connection a.sock a.conn boot
      let ev := [OtaEvent.accept listen_sock, OtaEvent.log OtaLog.client_connected] ++ r.events
      if r.restarted then
        { events := ev, ending := TaskEnd.restarted, boot := r.boot }
      else
        let run := ota_accept_loop listen_sock rest r.boot
        { run with events := ev ++ run.events }

/-- The bytes given to `esp_ota_write`, in order. -/
def written : List OtaEvent → List Byte
  | [] => []
  | OtaEvent.ota_write _ d :: es => d ++ written es
  | _ :: es => written es

/-- The handles given to `esp_ota_end`, one entry per call. -/
def end_calls (es : List OtaEvent) : List Nat :=
  es.filterMap fun e => match e with
    | OtaEvent.ota_end h => some h
    | _ => none

/-- The sockets given to `close`, one entry per call. -/
def close_calls (es : List OtaEvent) : List Int :=
  es.filterMap fun e => match e with
    | OtaEvent.close k => some k
    | _ => none

/-- The sockets given to `recv`, one entry per call. -/
def recv_calls (es : List OtaEvent) : List Int :=
  es.filterMap fun e => match e with
    | OtaEvent.recv k => some k
    | _ => none

/-- The partitions given to `esp_ota_set_boot_partition`, one entry per call. -/
def set_boot_calls (es : List OtaEvent) : List Partition :=
  es.filterMap fun e => match e with
    | OtaEvent.set_boot_partition p => some p
    | _ => none

/-- The calls of `esp_ota_write`, one entry per call: the handle written to
and the bytes given. -/
def write_calls (es : List OtaEvent) : List (Nat × List Byte) :=
  es.filterMap fun e => match e with
    | OtaEvent.ota_write h d => some (h, d)
    | _ => none

/-- The byte totals printed by the log line of a successful update, one
entry per such line. -/
def reported_totals (es : List OtaEvent) : List Int :=
  es.filterMap fun e => match e with
    | OtaEvent.log (OtaLog.update_successful t) => some t
    | _ => none

/-- The bytes of the reads of a connection, in arrival order. -/
def image_of (reads : List Read) : List Byte := (reads.map Read.data).flatten

/-- The calls of the receive loop for reads whose writes all succeed. -/
def read_write_calls (sock : Int) (handle : Nat) : List Read → List OtaEvent
  | [] => []
  | r :: rs =>
    OtaEvent.recv sock :: OtaEvent.ota_write handle r.data :: read_write_calls sock handle rs

/-! ## The log server (`tcp_server_task`, `wifi_logger.c` lines 179-268)

The task's own log lines pass through the hook like any other log call; the
text the logging library formats for each of them is the parameter `fmt`.
Log calls of the other tasks while a client is connected are an input of the
embedding (`Session.logs`), placed before the read that ends the session. -/

/-- A session on socket 5 with the single byte `97` buffered. -/
def oneByteState : HubState :=
  { log_vprintf := some Sink.wifi_log_vprintf, original_log_function := some (Sink.console 0),
    s_remote_log_socket := 5,
    s_log_buf := ⟨97 :: List.replicate 255 0, by
      rw [List.length_cons, List.length_replicate]; rfl⟩,
    s_log_buf_len := 1 }

/-- A read of `n` zero bytes whose write succeeds or not. -/
def chunk (n : Nat) (ok : Bool) (h1 : 0 < n) (h2 : n ≤ OTA_RECV_BUF) : Read :=
  { data := List.replicate n 0, write_ok := ok,
    pos := by rw [List.length_replicate]; exact h1,
    le := by rw [List.length_replicate]; exact h2 }

/-- Two application partitions. -/
def ota_0 : Partition := { subtype := 16, address := 65536 }
def ota_1 : Partition := { subtype := 17, address := 1114112 }

/-- A connection that delivers 10,000 bytes in three reads and closes, with
every platform call succeeding. -/
def conn10k : OtaConn :=
  { update_partition := some ota_1, begin_handle := some 1, malloc_ok := true,
    reads := [chunk 4096 true (by decide) (by decide), chunk 4096 true (by decide) (by decide),
              chunk 1808 true (by decide) (by decide)],
    last := RecvEnd.closed, end_ok := true, set_boot_ok := true }

/-- A connection that delivers `2^31` bytes in `2^19` reads of 4096 bytes and
closes, with every platform call succeeding. -/
def connHuge : OtaConn :=
  { conn10k with reads := List.replicate 524288 (chunk 4096 true (by decide) (by decide)) }

/-- The same connection with the write of the second read failing. -/
def connWriteFails : OtaConn :=
  { conn10k with
    reads := [chunk 4096 true (by decide) (by decide), chunk 4096 false (by decide) (by decide),
              chunk 1808 true (by decide) (by decide)] }

/-- The conditions under which the handler reaches `esp_restart`. -/
def clean_commit (c : OtaConn) : Prop :=
  c.update_partition.isSome = true ∧ c.begin_handle.isSome = true ∧ c.malloc_ok = true ∧
  (∀ r ∈ c.reads, r.write_ok = true) ∧ c.last = RecvEnd.closed ∧
  c.end_ok = true ∧ c.set_boot_ok = true

/-- The handles `esp_ota_end` is expected to be called with: the one
`esp_ota_begin` returned, if it was reached and succeeded. -/
def opened_handle (c : OtaConn) : List Nat :=
  match c.update_partition, c.begin_handle with
  | some _, some h => [h]
  | _, _ => []

/-- The connection of `conn10k` with set-boot failing. -/
def connSetBootFails : OtaConn := { conn10k with set_boot_ok := false }

theorem bufRead_of_le (b : LogBuf) (off n : Nat) (h : off + n ≤ LOG_BUF_SIZE) :
    bufRead b off n = some ((b.1.drop off).take n) := by
  simp [bufRead, h]

theorem memcpy_of_le (b : LogBuf) (off : Nat) (src : List Byte)
    (h : off + src.length ≤ LOG_BUF_SIZE) :
    ∃ b2 : LogBuf, memcpy b off src = some b2 ∧
      b2.1 = b.1.take off ++ src ++ b.1.drop (off + src.length) := by
  simp [memcpy, h]

theorem memcpy_isSome_iff (b : LogBuf) (off : Nat) (src : List Byte) :
    (memcpy b off src).isSome = true ↔ off + src.length ≤ LOG_BUF_SIZE := by
  unfold memcpy
  split <;> simp [*]

theorem take_written (b : LogBuf) (off : Nat) (src : List Byte)
    (h : off + src.length ≤ LOG_BUF_SIZE) :
    (b.1.take off ++ src ++ b.1.drop (off + src.length)).take (off + src.length)
      = b.1.take off ++ src := by
  have hb := b.2
  have h1 : (b.1.take off ++ src).length = off + src.length := by
    simp [List.length_take, hb]; omega
  rw [← h1]
  exact List.take_left' rfl

theorem memchr_none (w : List Byte) (c : Byte) : memchr w c = none ↔ c ∉ w := by
  induction w with
  | nil => simp [memchr]
  | cons b bs ih =>
    by_cases h : b = c
    · simp [memchr, h]
    · simp [memchr, h, ih, Ne.symm h]

theorem memchr_some (w : List Byte) (c : Byte) (i : Nat) (h : memchr w c = some i) :
    i < w.length ∧ c ∉ w.take i ∧ w.take (i + 1) = w.take i ++ [c] := by
  induction w generalizing i with
  | nil => simp [memchr] at h
  | cons b bs ih =>
    by_cases hb : b = c
    · simp [memchr, hb] at h
      subst h; simp [hb]
    · simp only [memchr, hb, if_false, Option.map_eq_some'] at h
      obtain ⟨j, hj, rfl⟩ := h
      obtain ⟨h1, h2, h3⟩ := ih j hj
      refine ⟨by simp; omega, ?_, ?_⟩
      · simp [List.take_succ_cons, Ne.symm hb, h2]
      · simp [List.take_succ_cons, h3]

/-! ## Lemmas on line splitting -/

theorem split_lines_from_no_newline (cur l : List Byte) (h : NEWLINE ∉ l) :
    split_lines_from cur l = ([], cur ++ l) := by
  induction l generalizing cur with
  | nil => simp [split_lines_from]
  | cons b bs ih =>
    have hb : b ≠ NEWLINE := fun e => h (by simp [e])
    have hbs : NEWLINE ∉ bs := fun e => h (by simp [e])
    simp [split_lines_from, hb, ih _ hbs]

theorem split_lines_from_newline (cur pre post : List Byte) (h : NEWLINE ∉ pre) :
    split_lines_from cur (pre ++ NEWLINE :: post)
      = ((cur ++ pre ++ [NEWLINE]) :: (split_lines post).1, (split_lines post).2) := by
  induction pre generalizing cur with
  | nil => simp [split_lines_from, split_lines]
  | cons b bs ih =>
    have hb : b ≠ NEWLINE := fun e => h (by simp [e])
    have hbs : NEWLINE ∉ bs := fun e => h (by simp [e])
    simp [split_lines_from, hb, ih _ hbs]

theorem split_lines_from_join (cur l : List Byte) :
    (split_lines_from cur l).1.flatten ++ (split_lines_from cur l).2 = cur ++ l := by
  induction l generalizing cur with
  | nil => simp [split_lines_from]
  | cons b bs ih =>
    by_cases hb : b = NEWLINE
    · have := ih []
      simp only [List.nil_append] at this
      simp [split_lines_from, hb, this]
    · simp [split_lines_from, hb, ih]

theorem split_lines_from_rest (cur l : List Byte) (h : NEWLINE ∉ cur) :
    NEWLINE ∉ (split_lines_from cur l).2 := by
  induction l generalizing cur with
  | nil => simpa [split_lines_from] using h
  | cons b bs ih =>
    by_cases hb : b = NEWLINE
    · simpa [split_lines_from, hb] using ih [] (by simp)
    · have : NEWLINE ∉ cur ++ [b] := by simp [h, Ne.symm hb]
      simpa [split_lines_from, hb] using ih _ this

theorem split_lines_join (l : List Byte) :
    (split_lines l).1.flatten ++ (split_lines l).2 = l := by
  simpa [split_lines] using split_lines_from_join [] l

theorem split_lines_rest (l : List Byte) : NEWLINE ∉ (split_lines l).2 :=
  split_lines_from_rest [] l (by simp)

theorem split_lines_rest_length (l : List Byte) : (split_lines l).2.length ≤ l.length := by
  have h := congrArg List.length (split_lines_join l)
  simp only [List.length_append] at h
  omega

/-! ## The three steps of the remote part -/

theorem window_length (b : LogBuf) (off n : Nat) (h : off + n ≤ LOG_BUF_SIZE) :
    ((b.1.drop off).take n).length = n := by
  have hb := b.2
  simp [List.length_take, List.length_drop, hb]; omega

theorem send_lines_spec (sock : Int) (b : LogBuf) (len : Nat) (hlen : len ≤ LOG_BUF_SIZE) :
    ∀ (fuel off : Nat) (evs : List Event), off ≤ len → len - off < fuel →
      ∃ off2, send_lines sock b len fuel off evs
          = some (off2, evs ++
              (split_lines ((b.1.drop off).take (len - off))).1.map (Event.send sock)) ∧
        off ≤ off2 ∧ off2 ≤ len ∧
        (b.1.drop off2).take (len - off2)
          = (split_lines ((b.1.drop off).take (len - off))).2 := by
  intro fuel
  induction fuel with
  | zero => intro off evs _ h; omega
  | succ fuel ih =>
    intro off evs hoff hfuel
    have hwl := window_length b off (len - off) (by omega)
    rw [send_lines, bufRead_of_le b off (len - off) (by omega)]
    simp only [Option.some_bind]
    cases hm : memchr ((b.1.drop off).take (len - off)) NEWLINE with
    | none =>
      have hn := (memchr_none _ _).1 hm
      refine ⟨off, ?_, le_refl _, hoff, ?_⟩
      · simp [split_lines, split_lines_from_no_newline _ _ hn]
      · simp [split_lines, split_lines_from_no_newline _ _ hn]
    | some i =>
      obtain ⟨hi, hpre, htk⟩ := memchr_some _ _ _ hm
      rw [hwl] at hi
      simp only []
      rw [bufRead_of_le b off (i + 1) (by omega)]
      simp only [Option.some_bind]
      obtain ⟨off2, h1, h2, h3, h4⟩ :=
        ih (off + (i + 1)) (evs ++ [Event.send sock ((b.1.drop off).take (i + 1))])
          (by omega) (by omega)
      -- the window splits at the newline found
      have hsplit : (b.1.drop off).take (len - off)
          = ((b.1.drop off).take (len - off)).take i ++
              NEWLINE :: (b.1.drop (off + (i + 1))).take (len - (off + (i + 1))) := by
        have e1 : (b.1.drop off).take (len - off)
            = ((b.1.drop off).take (len - off)).take (i + 1)
                ++ ((b.1.drop off).take (len - off)).drop (i + 1) :=
          (List.take_append_drop _ _).symm
        have e2 : ((b.1.drop off).take (len - off)).drop (i + 1)
            = (b.1.drop (off + (i + 1))).take (len - (off + (i + 1))) := by
          rw [List.drop_take, List.drop_drop]
          congr 1
          omega
        rw [e2, htk] at e1
        simpa using e1
      have hline : (b.1.drop off).take (i + 1)
          = ((b.1.drop off).take (len - off)).take i ++ [NEWLINE] := by
        rw [← htk, List.take_take]
        congr 1; omega
      have hsp := split_lines_from_newline []
        (((b.1.drop off).take (len - off)).take i)
        ((b.1.drop (off + (i + 1))).take (len - (off + (i + 1)))) hpre
      rw [← hsplit] at hsp
      refine ⟨off2, ?_, by omega, h3, ?_⟩
      · rw [h1]
        simp only [split_lines, hsp, hline]
        simp [split_lines]
      · rw [h4]
        simp only [split_lines, hsp]

theorem move_remaining_spec (b : LogBuf) (len off : Nat) (hoff : off ≤ len)
    (hlen : len ≤ LOG_BUF_SIZE) :
    ∃ b2 : LogBuf, move_remaining b len off = some (b2, len - off) ∧
      b2.1.take (len - off) = (b.1.drop off).take (len - off) := by
  have hwl := window_length b off (len - off) (by omega)
  obtain ⟨b2, h1, h2⟩ := memcpy_of_le b 0 ((b.1.drop off).take (len - off)) (by omega)
  refine ⟨b2, ?_, ?_⟩
  · simp [move_remaining, bufRead_of_le b off (len - off) (by omega), h1]
  · rw [h2]
    simp [hwl]

theorem scan_spec (sock : Int) (b : LogBuf) (len : Nat) (hlen : len ≤ LOG_BUF_SIZE) :
    ∃ (off : Nat) (b2 : LogBuf),
      send_lines sock b len (len + 1) 0 []
        = some (off, (split_lines (b.1.take len)).1.map (Event.send sock)) ∧
      move_remaining b len off = some (b2, (split_lines (b.1.take len)).2.length) ∧
      b2.1.take (split_lines (b.1.take len)).2.length = (split_lines (b.1.take len)).2 := by
  obtain ⟨off, h1, _, h3, h4⟩ := send_lines_spec sock b len hlen (len + 1) 0 [] (by omega) (by omega)
  obtain ⟨b2, h5, h6⟩ := move_remaining_spec b len off h3 hlen
  have hl : (split_lines (b.1.take len)).2.length = len - off := by
    have := congrArg List.length h4
    rw [window_length b off (len - off) (by omega)] at this
    simpa using this.symm
  refine ⟨off, b2, ?_, ?_, ?_⟩
  · simpa using h1
  · rw [hl]; exact h5
  · rw [hl, h6, h4]; simp

theorem take_length_of_le (b : LogBuf) (n : Nat) (h : n ≤ LOG_BUF_SIZE) :
    (b.1.take n).length = n := by
  have hb := b.2
  simp [List.length_take, hb]; omega

/-- The remote part refines the spec-level policy. -/
theorem remote_part_spec (sock : Int) (b : LogBuf) (n : Nat) (text : List Byte)
    (hn : n ≤ LOG_BUF_SIZE) :
    ∃ b2 : LogBuf,
      remote_part sock b n text
        = some (b2, (remote_policy (b.1.take n) text).2.length,
            (remote_policy (b.1.take n) text).1.map (Event.send sock)) ∧
      b2.1.take (remote_policy (b.1.take n) text).2.length
        = (remote_policy (b.1.take n) text).2 := by
  have hold := take_length_of_le b n hn
  unfold remote_part append_fragment remote_policy
  simp only [hold]
  by_cases h1 : n + text.length < LOG_BUF_SIZE
  · obtain ⟨b1, hb1, hb1v⟩ := memcpy_of_le b n text (by omega)
    have htk : b1.1.take (n + text.length) = b.1.take n ++ text := by
      rw [hb1v]; exact take_written b n text (by omega)
    obtain ⟨off, b2, h2, h3, h4⟩ := scan_spec sock b1 (n + text.length) (by omega)
    rw [htk] at h2 h3 h4
    refine ⟨b2, ?_, ?_⟩
    · simp [h1, hb1, h2, h3]
    · simpa [h1] using h4
  · by_cases h2 : text.length < LOG_BUF_SIZE
    · obtain ⟨b1, hb1, hb1v⟩ := memcpy_of_le b 0 text (by omega)
      have htk : b1.1.take text.length = text := by
        rw [hb1v]
        simp
      obtain ⟨off, b2, h3, h4, h5⟩ := scan_spec sock b1 text.length (by omega)
      rw [htk] at h3 h4 h5
      refine ⟨b2, ?_, ?_⟩
      · simp [h1, h2, hb1, h3, h4, bufRead_of_le b 0 n (by omega)]
      · simpa [h1, h2] using h5
    · refine ⟨b, ?_, ?_⟩
      · have h0 : (0 : Nat) ≤ LOG_BUF_SIZE := by omega
        simp [h1, h2, hn, h0, send_lines, bufRead, memchr, move_remaining, memcpy]
      · simp [h1, h2]

/-! ## The hook as a whole -/

theorem remote_policy_concat (old text : List Byte) :
    (remote_policy old text).1.flatten ++ (remote_policy old text).2 = old ++ text := by
  unfold remote_policy
  split
  · exact split_lines_join _
  · split
    · simp [List.append_assoc, split_lines_join]
    · simp

theorem remote_policy_rest (old text : List Byte) : NEWLINE ∉ (remote_policy old text).2 := by
  unfold remote_policy
  split
  · exact split_lines_rest _
  · split
    · exact split_lines_rest _
    · simp

theorem remote_policy_rest_length (old text : List Byte) :
    (remote_policy old text).2.length < LOG_BUF_SIZE := by
  unfold remote_policy
  split
  · have := split_lines_rest_length (old ++ text)
    simp only [List.length_append] at this
    omega
  · split
    · have := split_lines_rest_length text
      simp only []
      omega
    · simp [LOG_BUF_SIZE]

/-- The hook refines the spec-level policy; it returns whenever the original
sink is not the hook itself and the length in use is within the array. -/
theorem emit_spec (s : HubState) (text : List Byte)
    (horig : s.original_log_function ≠ some Sink.wifi_log_vprintf)
    (hlen : s.s_log_buf_len ≤ LOG_BUF_SIZE) :
    ∃ (r : EmitResult) (ev0 : List Event),
      wifi_log_vprintf s text = some r ∧
      console_part s.original_log_function text = some ev0 ∧
      r.ret = text.length ∧
      r.state.log_vprintf = s.log_vprintf ∧
      r.state.original_log_function = s.original_log_function ∧
      r.state.s_remote_log_socket = s.s_remote_log_socket ∧
      ((s.s_remote_log_socket ≠ -1 ∧ 0 < text.length) →
        r.events = ev0 ++ (remote_policy (buffered s) text).1.map
                      (Event.send s.s_remote_log_socket) ∧
        buffered r.state = (remote_policy (buffered s) text).2 ∧
        r.state.s_log_buf_len = (remote_policy (buffered s) text).2.length) ∧
      (¬ (s.s_remote_log_socket ≠ -1 ∧ 0 < text.length) → r.events = ev0 ∧ r.state = s) := by
  have hc : ∃ ev0, console_part s.original_log_function text = some ev0 := by
    unfold console_part
    cases ho : s.original_log_function with
    | none => exact ⟨_, rfl⟩
    | some k =>
      cases k with
      | console f => exact ⟨_, rfl⟩
      | wifi_log_vprintf => exact absurd ho horig
  obtain ⟨ev0, hev0⟩ := hc
  by_cases hr : s.s_remote_log_socket ≠ -1 ∧ 0 < text.length
  · obtain ⟨b2, h1, h2⟩ :=
      remote_part_spec s.s_remote_log_socket s.s_log_buf s.s_log_buf_len text hlen
    refine ⟨{ state := { s with s_log_buf := b2,
                                s_log_buf_len := (remote_policy (buffered s) text).2.length },
              events := ev0 ++ (remote_policy (buffered s) text).1.map
                          (Event.send s.s_remote_log_socket),
              ret := text.length }, ev0, ?_, hev0, ?_⟩
    · unfold wifi_log_vprintf
      rw [hev0]
      simp only [Option.some_bind]
      rw [if_pos hr, h1]
      rfl
    · refine ⟨rfl, rfl, rfl, rfl, ?_, fun h => absurd hr h⟩
      intro _
      exact ⟨rfl, h2, rfl⟩
  · refine ⟨⟨s, ev0, text.length⟩, ev0, ?_, hev0, rfl, rfl, rfl, rfl, fun h => absurd h hr, ?_⟩
    · unfold wifi_log_vprintf
      rw [hev0]
      simp only [Option.some_bind]
      rw [if_neg hr]
    · intro _; exact ⟨rfl, rfl⟩

/-! ## Projections of event lists -/

theorem sent_bytes_append (a b : List Event) :
    sent_bytes (a ++ b) = sent_bytes a ++ sent_bytes b := by
  induction a with
  | nil => rfl
  | cons e es ih => cases e <;> simp [sent_bytes, ih]

theorem sends_append (a b : List Event) : sends (a ++ b) = sends a ++ sends b := by
  induction a with
  | nil => rfl
  | cons e es ih => cases e <;> simp [sends, ih]

theorem console_output_append (a b : List Event) :
    console_output (a ++ b) = console_output a ++ console_output b := by
  induction a with
  | nil => rfl
  | cons e es ih => cases e <;> simp [console_output, ih]

theorem sent_bytes_map_send (k : Int) (l : List (List Byte)) :
    sent_bytes (l.map (Event.send k)) = l.flatten := by
  induction l with
  | nil => rfl
  | cons d ds ih => simp [sent_bytes, ih]

theorem sends_map_send (k : Int) (l : List (List Byte)) :
    sends (l.map (Event.send k)) = l.map fun d => (k, d) := by
  induction l with
  | nil => rfl
  | cons d ds ih => simp [sends, ih]

theorem console_output_map_send (k : Int) (l : List (List Byte)) :
    console_output (l.map (Event.send k)) = [] := by
  induction l with
  | nil => rfl
  | cons d ds ih => simp [console_output, ih]

theorem console_part_events (orig : Option Sink) (text : List Byte) (ev0 : List Event)
    (h : console_part orig text = some ev0) :
    sent_bytes ev0 = [] ∧ sends ev0 = [] ∧
      (∀ f, orig = some (Sink.console f) → ev0 = [Event.console f text]) ∧
      (orig = none → ev0 = []) := by
  unfold console_part at h
  cases orig with
  | none =>
    simp only [Option.some.injEq] at h
    subst h
    simp [sent_bytes, sends]
  | some k =>
    cases k with
    | console f =>
      simp only [Option.some.injEq] at h
      subst h
      simp [sent_bytes, sends]
    | wifi_log_vprintf => simp at h

/-- One call of the hook from a state within its invariant. -/
theorem emit_step (s : HubState) (text : List Byte)
    (horig : s.original_log_function ≠ some Sink.wifi_log_vprintf)
    (hlen : s.s_log_buf_len < LOG_BUF_SIZE) :
    ∃ r : EmitResult, wifi_log_vprintf s text = some r ∧
      r.state.s_log_buf_len < LOG_BUF_SIZE ∧
      r.state.s_remote_log_socket = s.s_remote_log_socket ∧
      r.state.original_log_function = s.original_log_function ∧
      r.state.log_vprintf = s.log_vprintf ∧
      (s.s_remote_log_socket ≠ -1 →
        sent_bytes r.events ++ buffered r.state = buffered s ++ text) ∧
      (s.s_remote_log_socket ≠ -1 → NEWLINE ∉ buffered s → NEWLINE ∉ buffered r.state) ∧
      (∀ p ∈ sends r.events, p.1 = s.s_remote_log_socket) ∧
      (s.s_remote_log_socket = -1 → sends r.events = []) ∧
      (∀ f, s.original_log_function = some (Sink.console f) →
        console_output r.events = [(f, text)]) := by
  obtain ⟨r, ev0, h1, h2, _, h4, h5, h6, h7, h8⟩ := emit_spec s text horig (by omega)
  obtain ⟨c1, c2, c3, _⟩ := console_part_events _ _ _ h2
  refine ⟨r, h1, ?_, h6, h5, h4, ?_, ?_, ?_, ?_, ?_⟩
  · by_cases hr : s.s_remote_log_socket ≠ -1 ∧ 0 < text.length
    · rw [(h7 hr).2.2]; exact remote_policy_rest_length _ _
    · rw [(h8 hr).2]; exact hlen
  · intro hs
    by_cases hr : s.s_remote_log_socket ≠ -1 ∧ 0 < text.length
    · obtain ⟨e1, e2, _⟩ := h7 hr
      rw [e1, e2, sent_bytes_append, c1, sent_bytes_map_send]
      simpa using remote_policy_concat (buffered s) text
    · obtain ⟨e1, e2⟩ := h8 hr
      have ht : text = [] := by
        cases text with
        | nil => rfl
        | cons a l => exact absurd ⟨hs, by simp⟩ hr
      rw [e1, e2, c1, ht]; simp
  · intro hs hnl
    by_cases hr : s.s_remote_log_socket ≠ -1 ∧ 0 < text.length
    · rw [(h7 hr).2.1]; exact remote_policy_rest _ _
    · rw [(h8 hr).2]; exact hnl
  · intro p hp
    by_cases hr : s.s_remote_log_socket ≠ -1 ∧ 0 < text.length
    · rw [(h7 hr).1, sends_append, c2, sends_map_send] at hp
      simp only [List.nil_append, List.mem_map] at hp
      obtain ⟨d, _, rfl⟩ := hp
      rfl
    · rw [(h8 hr).1, c2] at hp
      simp at hp
  · intro hs
    have hr : ¬ (s.s_remote_log_socket ≠ -1 ∧ 0 < text.length) := fun h => h.1 hs
    rw [(h8 hr).1, c2]
  · intro f hf
    by_cases hr : s.s_remote_log_socket ≠ -1 ∧ 0 < text.length
    · rw [(h7 hr).1, console_output_append, console_output_map_send, c3 f hf]
      simp [console_output]
    · rw [(h8 hr).1, c3 f hf]
      simp [console_output]

/-- Any sequence of calls of the hook from a state within its invariant. -/
theorem emit_all_spec (frags : List (List Byte)) :
    ∀ s : HubState, s.original_log_function ≠ some Sink.wifi_log_vprintf →
      s.s_log_buf_len < LOG_BUF_SIZE →
      ∃ (s2 : HubState) (evs : List Event), emit_all s frags = some (s2, evs) ∧
        s2.s_log_buf_len < LOG_BUF_SIZE ∧
        s2.s_remote_log_socket = s.s_remote_log_socket ∧
        s2.original_log_function = s.original_log_function ∧
        s2.log_vprintf = s.log_vprintf ∧
        (s.s_remote_log_socket ≠ -1 →
          sent_bytes evs ++ buffered s2 = buffered s ++ frags.flatten) ∧
        (s.s_remote_log_socket ≠ -1 → NEWLINE ∉ buffered s → NEWLINE ∉ buffered s2) ∧
        (∀ p ∈ sends evs, p.1 = s.s_remote_log_socket) ∧
        (s.s_remote_log_socket = -1 → sends evs = []) ∧
        (∀ f, s.original_log_function = some (Sink.console f) →
          console_output evs = frags.map fun t => (f, t)) := by
  induction frags with
  | nil =>
    intro s _ hlen
    exact ⟨s, [], rfl, hlen, rfl, rfl, rfl, by simp [sent_bytes], fun _ h => h,
      by simp [sends], by simp [sends], by simp [console_output]⟩
  | cons t ts ih =>
    intro s horig hlen
    obtain ⟨r, h1, h2, h3, h4, h5, h6, h7, h8, h9, h10⟩ := emit_step s t horig hlen
    obtain ⟨s2, evs, g1, g2, g3, g4, g5, g6, g7, g8, g9, g10⟩ :=
      ih r.state (by rw [h4]; exact horig) h2
    refine ⟨s2, r.events ++ evs, ?_, g2, by rw [g3, h3], by rw [g4, h4], by rw [g5, h5],
      ?_, ?_, ?_, ?_, ?_⟩
    · simp [emit_all, h1, g1]
    · intro hs
      have e1 := h6 hs
      have e2 := g6 (by rw [h3]; exact hs)
      rw [sent_bytes_append, List.append_assoc, e2, ← List.append_assoc, e1]
      simp
    · intro hs hnl
      exact g7 (by rw [h3]; exact hs) (h7 hs hnl)
    · intro p hp
      rw [sends_append, List.mem_append] at hp
      rcases hp with hp | hp
      · exact h8 p hp
      · rw [← h3]; exact g8 p hp
    · intro hs
      rw [sends_append, h9 hs, g9 (by rw [h3]; exact hs)]
      rfl
    · intro f hf
      rw [console_output_append, h10 f hf, g10 f (by rw [h4]; exact hf)]
      rfl

/-! ## Log calls through the hook currently set -/

theorem log_all_console (texts : List (List Byte)) (s : HubState) (f : Nat)
    (h : s.log_vprintf = some (Sink.console f)) :
    log_all s texts = some (s, texts.map (Event.console f)) := by
  induction texts with
  | nil => rfl
  | cons t ts ih => simp [log_all, log_call, h, ih]

theorem log_all_hook (texts : List (List Byte)) :
    ∀ s : HubState, s.log_vprintf = some Sink.wifi_log_vprintf →
      s.original_log_function ≠ some Sink.wifi_log_vprintf →
      s.s_log_buf_len < LOG_BUF_SIZE →
      log_all s texts = emit_all s texts := by
  induction texts with
  | nil => intro s _ _ _; rfl
  | cons t ts ih =>
    intro s hh horig hlen
    obtain ⟨r, h1, h2, _, h4, h5, _⟩ := emit_step s t horig hlen
    have := ih r.state (by rw [h5]; exact hh) (by rw [h4]; exact horig) h2
    simp [log_all, emit_all, log_call, hh, h1, this]

theorem console_output_map_console (f : Nat) (texts : List (List Byte)) :
    console_output (texts.map (Event.console f)) = texts.map fun t => (f, t) := by
  induction texts with
  | nil => rfl
  | cons t ts ih => simp [console_output, ih]

theorem sends_map_console (f : Nat) (texts : List (List Byte)) :
    sends (texts.map (Event.console f)) = [] := by
  induction texts with
  | nil => rfl
  | cons t ts ih => simp [sends, ih]

/-! ## Properties of the log hub -/

/-- C1: with a remote socket installed and starting from the empty buffer of
a session start, for every sequence of fragments the hook returns, the bytes
given to `send` (all on the installed socket, in order) followed by the bytes
still buffered are the concatenation of the non-empty fragments in emit order,
and the bytes still buffered hold no newline: every newline-terminated line
has been sent, once and in order. -/
theorem remote_stream_is_fragment_stream (s : HubState) (frags : List (List Byte))
    (hsock : s.s_remote_log_socket ≠ -1)
    (hempty : s.s_log_buf_len = 0)
    (horig : s.original_log_function ≠ some Sink.wifi_log_vprintf) :
    ∃ (s2 : HubState) (evs : List Event), emit_all s frags = some (s2, evs) ∧
      sent_bytes evs ++ buffered s2 = (frags.filter fun t => t ≠ []).flatten ∧
      NEWLINE ∉ buffered s2 ∧
      (∀ p ∈ sends evs, p.1 = s.s_remote_log_socket) := by
  obtain ⟨s2, evs, h1, _, _, _, _, h6, h7, h8, _⟩ :=
    emit_all_spec frags s horig (by rw [hempty]; decide)
  have hb : buffered s = [] := by simp [buffered, hempty]
  refine ⟨s2, evs, h1, ?_, h7 hsock (by simp [hb]), h8⟩
  rw [h6 hsock, hb, List.flatten_filter_ne_nil]
  rfl

/-- Witness of C1: a session started on socket 5, then `hello` and `world`;
the sends are exactly the two lines. -/
theorem remote_stream_is_fragment_stream_witness :
    (∃ (s2 : HubState) (evs : List Event),
      emit_all (install (initState 0) 5) [hello, world] = some (s2, evs) ∧
      sent_bytes evs ++ buffered s2 = ([hello, world].filter fun t => t ≠ []).flatten ∧
      NEWLINE ∉ buffered s2 ∧
      (∀ p ∈ sends evs, p.1 = (install (initState 0) 5).s_remote_log_socket)) ∧
    (emit_all (install (initState 0) 5) [hello, world]).map (fun p => sends p.2)
      = some [(5, hello), (5, world)] :=
  ⟨remote_stream_is_fragment_stream (install (initState 0) 5) [hello, world]
    (by decide) rfl (by decide), by decide⟩

/-- Every reachable hub state has its length in use within the array; with
no client connected its hook is the console function, and with a client
connected its hook is `wifi_log_vprintf` with the console function recorded
as original sink. -/
theorem reachable_invariant (f : Nat) (b : Bool) (s : HubState) (h : Reachable f b s) :
    s.s_log_buf_len < LOG_BUF_SIZE ∧
    (b = false → s.log_vprintf = some (Sink.console f)) ∧
    (b = true → s.log_vprintf = some Sink.wifi_log_vprintf ∧
      s.original_log_function = some (Sink.console f) ∧ s.s_remote_log_socket ≠ -1) := by
  induction h with
  | start =>
    refine ⟨?_, ?_, ?_⟩
    · show (0 : Nat) < 256
      omega
    · intro _; rfl
    · intro hb; cases hb
  | log b s text r _ hcall ih =>
    obtain ⟨i1, i2, i3⟩ := ih
    cases b with
    | false =>
      have hk := i2 rfl
      simp only [log_call, hk, Option.some.injEq] at hcall
      subst hcall
      refine ⟨i1, ?_, ?_⟩
      · intro _; exact hk
      · intro hb; cases hb
    | true =>
      obtain ⟨hk, ho, hsk⟩ := i3 rfl
      obtain ⟨r2, h1, h2, h3, h4, h5, _⟩ := emit_step s text (by rw [ho]; simp) i1
      simp only [log_call, hk, h1, Option.some.injEq] at hcall
      subst hcall
      refine ⟨h2, ?_, ?_⟩
      · intro hb; cases hb
      · intro _
        refine ⟨?_, ?_, ?_⟩
        · rw [h5, hk]
        · rw [h4, ho]
        · rw [h3]; exact hsk
  | accept s sock _ hsock ih =>
    obtain ⟨_, i2, _⟩ := ih
    have hk := i2 rfl
    refine ⟨?_, ?_, ?_⟩
    · simp [install, esp_log_set_vprintf, LOG_BUF_SIZE]
    · intro hb; cases hb
    · intro _
      refine ⟨?_, ?_, ?_⟩
      · simp [install, esp_log_set_vprintf]
      · simp [install, esp_log_set_vprintf, hk]
      · simp only [install, esp_log_set_vprintf]
        omega
  | disconnect s _ ih =>
    obtain ⟨i1, _, i3⟩ := ih
    obtain ⟨_, ho, _⟩ := i3 rfl
    refine ⟨?_, ?_, ?_⟩
    · simpa [restore, esp_log_set_vprintf] using i1
    · intro _; simp [restore, esp_log_set_vprintf, ho]
    · intro hb; cases hb

/-- C5: (1) in every hub state in which a console function `f` is recorded
as original sink, whatever the socket and the buffer content within the
array, the hook returns and its first action is one call of `f` with the
formatted text; all later actions are sends, and there are none without a
socket. (2) That is the case at every call of the hook the program makes:
in every reachable state whose hook is `wifi_log_vprintf` the original sink
is the console function, so the `NULL` branch of the guard is not taken.
(3) In every reachable state, client connected or not, a log call reaches
the console exactly once. (4) For any sequence of log calls the console
output is the same with a session installed as without. -/
theorem console_forwarded_first :
    (∀ (s : HubState) (text : List Byte) (f : Nat),
      s.original_log_function = some (Sink.console f) →
      s.s_log_buf_len ≤ LOG_BUF_SIZE →
      ∃ (r : EmitResult) (rest : List Event), wifi_log_vprintf s text = some r ∧
        r.events = Event.console f text :: rest ∧ console_output rest = [] ∧
        (s.s_remote_log_socket = -1 → rest = [])) ∧
    (∀ (f : Nat) (b : Bool) (s : HubState) (text : List Byte),
      Reachable f b s → s.log_vprintf = some Sink.wifi_log_vprintf →
      ∃ (r : EmitResult) (rest : List Event), wifi_log_vprintf s text = some r ∧
        r.events = Event.console f text :: rest ∧ console_output rest = []) ∧
    (∀ (f : Nat) (b : Bool) (s : HubState) (text : List Byte),
      Reachable f b s →
      ∃ r : EmitResult, log_call s text = some r ∧
        console_output r.events = [(f, text)] ∧ Reachable f b r.state) ∧
    (∀ (s : HubState) (f : Nat) (sock : Int) (texts : List (List Byte)),
      s.log_vprintf = some (Sink.console f) →
      ∃ (sA sB : HubState) (evA evB : List Event),
        log_all s texts = some (sA, evA) ∧
        log_all (install s sock) texts = some (sB, evB) ∧
        console_output evB = console_output evA ∧
        console_output evA = texts.map fun t => (f, t)) := by
  have part1 : ∀ (s : HubState) (text : List Byte) (f : Nat),
      s.original_log_function = some (Sink.console f) →
      s.s_log_buf_len ≤ LOG_BUF_SIZE →
      ∃ (r : EmitResult) (rest : List Event), wifi_log_vprintf s text = some r ∧
        r.events = Event.console f text :: rest ∧ console_output rest = [] ∧
        (s.s_remote_log_socket = -1 → rest = []) := by
    intro s text f hf hlen
    obtain ⟨r, ev0, h1, h2, _, _, _, _, h7, h8⟩ :=
      emit_spec s text (by rw [hf]; simp) hlen
    have hev0 : ev0 = [Event.console f text] := (console_part_events _ _ _ h2).2.2.1 f hf
    by_cases hr : s.s_remote_log_socket ≠ -1 ∧ 0 < text.length
    · refine ⟨r, (remote_policy (buffered s) text).1.map (Event.send s.s_remote_log_socket),
        h1, ?_, console_output_map_send s.s_remote_log_socket _, fun h => absurd h hr.1⟩
      rw [(h7 hr).1, hev0]; rfl
    · exact ⟨r, [], h1, by rw [(h8 hr).1, hev0], rfl, fun _ => rfl⟩
  refine ⟨part1, ?_, ?_, ?_⟩
  · intro f b s text hreach hk
    obtain ⟨i1, i2, i3⟩ := reachable_invariant f b s hreach
    cases b with
    | false => rw [i2 rfl] at hk; simp at hk
    | true =>
      obtain ⟨r, rest, g1, g2, g3, _⟩ := part1 s text f (i3 rfl).2.1 (by omega)
      exact ⟨r, rest, g1, g2, g3⟩
  · intro f b s text hreach
    obtain ⟨i1, i2, i3⟩ := reachable_invariant f b s hreach
    cases b with
    | false =>
      have hk := i2 rfl
      have hcall : log_call s text
          = some { state := s, events := [Event.console f text], ret := text.length } := by
        simp [log_call, hk]
      exact ⟨_, hcall, rfl, Reachable.log false s text _ hreach hcall⟩
    | true =>
      obtain ⟨hk, ho, _⟩ := i3 rfl
      obtain ⟨r, rest, g1, g2, g3, _⟩ := part1 s text f ho (by omega)
      have hcall : log_call s text = some r := by simp [log_call, hk, g1]
      refine ⟨r, hcall, ?_, Reachable.log true s text r hreach hcall⟩
      rw [g2]
      simp [console_output, g3]
  · intro s f sock texts hf
    have hA := log_all_console texts s f hf
    have horig : (install s sock).original_log_function ≠ some Sink.wifi_log_vprintf := by
      simp [install, esp_log_set_vprintf, hf]
    have hlen : (install s sock).s_log_buf_len < LOG_BUF_SIZE := by
      simp [install, esp_log_set_vprintf, LOG_BUF_SIZE]
    obtain ⟨sB, evB, g1, _, _, _, _, _, _, _, _, g10⟩ :=
      emit_all_spec texts (install s sock) horig hlen
    refine ⟨s, sB, _, evB, hA, ?_, ?_, console_output_map_console f texts⟩
    · rw [log_all_hook texts _ (by simp [install, esp_log_set_vprintf]) horig hlen]
      exact g1
    · rw [console_output_map_console]
      exact g10 f (by simp [install, esp_log_set_vprintf, hf])

/-- Witness of C5: with a client connected on socket 5 since program start,
a call of the hook and a log call; and two log calls with and without that
session. -/
theorem console_forwarded_first_witness :
    (∃ (r : EmitResult) (rest : List Event),
      wifi_log_vprintf (install (initState 0) 5) hello = some r ∧
        r.events = Event.console 0 hello :: rest ∧ console_output rest = [] ∧
        ((install (initState 0) 5).s_remote_log_socket = -1 → rest = [])) ∧
    (∃ (r : EmitResult) (rest : List Event),
      wifi_log_vprintf (install (initState 0) 5) hello = some r ∧
        r.events = Event.console 0 hello :: rest ∧ console_output rest = []) ∧
    (∃ r : EmitResult, log_call (install (initState 0) 5) hello = some r ∧
        console_output r.events = [(0, hello)] ∧ Reachable 0 true r.state) ∧
    (∃ (sA sB : HubState) (evA evB : List Event),
        log_all (initState 0) [hello, world] = some (sA, evA) ∧
        log_all (install (initState 0) 5) [hello, world] = some (sB, evB) ∧
        console_output evB = console_output evA ∧
        console_output evA = [hello, world].map fun t => (0, t)) ∧
    (wifi_log_vprintf (install (initState 0) 5) hello).map (fun r => r.events)
      = some [Event.console 0 hello, Event.send 5 hello] :=
  ⟨console_forwarded_first.1 (install (initState 0) 5) hello 0 rfl (by decide),
   console_forwarded_first.2.1 0 true (install (initState 0) 5) hello
     (Reachable.accept (initState 0) 5 Reachable.start (by decide)) rfl,
   console_forwarded_first.2.2.1 0 true (install (initState 0) 5) hello
     (Reachable.accept (initState 0) 5 Reachable.start (by decide)),
   console_forwarded_first.2.2.2 (initState 0) 0 5 [hello, world] rfl,
   by decide⟩

/-- C6: from a hub state whose hook is the console function `f`, `install`
followed (directly, or after any log calls of the session) by `restore`
gives a state whose hook is `f` again and whose socket is `-1`; every later
sequence of log calls then returns exactly the console events it returns
before `install`, and contains no send. -/
theorem restore_after_install (s : HubState) (f : Nat) (sock : Int)
    (session later : List (List Byte))
    (h : s.log_vprintf = some (Sink.console f)) :
    (restore (install s sock)).log_vprintf = s.log_vprintf ∧
    (restore (install s sock)).s_remote_log_socket = -1 ∧
    ∃ (s1 : HubState) (evs : List Event),
      log_all (install s sock) session = some (s1, evs) ∧
      (restore s1).log_vprintf = s.log_vprintf ∧
      (restore s1).s_remote_log_socket = -1 ∧
      log_all (restore s1) later = some (restore s1, later.map (Event.console f)) ∧
      log_all s later = some (s, later.map (Event.console f)) ∧
      sends (later.map (Event.console f)) = [] := by
  have horig : (install s sock).original_log_function ≠ some Sink.wifi_log_vprintf := by
    simp [install, esp_log_set_vprintf, h]
  have hlen : (install s sock).s_log_buf_len < LOG_BUF_SIZE := by
    simp [install, esp_log_set_vprintf, LOG_BUF_SIZE]
  obtain ⟨s1, evs, g1, _, _, g4, _⟩ := emit_all_spec session (install s sock) horig hlen
  have hs1 : (restore s1).log_vprintf = some (Sink.console f) := by
    simp [restore, esp_log_set_vprintf, g4, install, h]
  refine ⟨by simp [restore, install, esp_log_set_vprintf],
    by simp [restore, install, esp_log_set_vprintf], s1, evs, ?_, by rw [hs1, h],
    by simp [restore, esp_log_set_vprintf], log_all_console later _ f hs1,
    log_all_console later s f h, sends_map_console f later⟩
  rw [log_all_hook session _ (by simp [install, esp_log_set_vprintf]) horig hlen]
  exact g1

/-- Witness of C6: install on socket 5 at program start, a session that logs
`hello`, restore, then `world`. -/
theorem restore_after_install_witness :
    (restore (install (initState 0) 5)).log_vprintf = (initState 0).log_vprintf ∧
    (restore (install (initState 0) 5)).s_remote_log_socket = -1 ∧
    ∃ (s1 : HubState) (evs : List Event),
      log_all (install (initState 0) 5) [hello] = some (s1, evs) ∧
      (restore s1).log_vprintf = (initState 0).log_vprintf ∧
      (restore s1).s_remote_log_socket = -1 ∧
      log_all (restore s1) [world] = some (restore s1, [world].map (Event.console 0)) ∧
      log_all (initState 0) [world] = some (initState 0, [world].map (Event.console 0)) ∧
      sends ([world].map (Event.console 0)) = [] :=
  restore_after_install (initState 0) 0 5 [hello] [world] rfl

/-- C7: starting from the empty buffer of a session start, after any
sequence of calls of the hook, with fragments of any length, every access to
the array was within its `LOG_BUF_SIZE` bytes (the calls return; a copy
returns exactly when it stays within the array) and `s_log_buf_len` is at
most `LOG_BUF_SIZE - 1 = 255`. -/
theorem buffer_length_invariant (s : HubState) (frags : List (List Byte))
    (hempty : s.s_log_buf_len = 0)
    (horig : s.original_log_function ≠ some Sink.wifi_log_vprintf) :
    (∃ (s2 : HubState) (evs : List Event), emit_all s frags = some (s2, evs) ∧
      s2.s_log_buf_len ≤ LOG_BUF_SIZE - 1 ∧ LOG_BUF_SIZE - 1 = 255) ∧
    (∀ (b : LogBuf) (off : Nat) (src : List Byte),
      (memcpy b off src).isSome = true ↔ off + src.length ≤ LOG_BUF_SIZE) := by
  obtain ⟨s2, evs, h1, h2, _⟩ := emit_all_spec frags s horig (by rw [hempty]; decide)
  exact ⟨⟨s2, evs, h1, by omega, rfl⟩, memcpy_isSome_iff⟩

/-- Witness of C7: a session on socket 5 receiving fragments of 3, 255, 256
and 300 bytes. -/
theorem buffer_length_invariant_witness :
    (∃ (s2 : HubState) (evs : List Event),
      emit_all (install (initState 0) 5)
        [[1, 2, 3], List.replicate 255 9, List.replicate 256 8, List.replicate 300 7]
        = some (s2, evs) ∧
      s2.s_log_buf_len ≤ LOG_BUF_SIZE - 1 ∧ LOG_BUF_SIZE - 1 = 255) ∧
    (∀ (b : LogBuf) (off : Nat) (src : List Byte),
      (memcpy b off src).isSome = true ↔ off + src.length ≤ LOG_BUF_SIZE) :=
  buffer_length_invariant (install (initState 0) 5) _ rfl (by decide)

set_option maxRecDepth 100000 in
/-- C9, as stated, fails at both thresholds: with one byte buffered and a
fragment of 255 bytes (sum 256) the buffered byte is sent before the
fragment is stored; and a fragment of exactly 256 bytes is sent directly and
not buffered. -/
theorem thresholds_counterexample :
    (oneByteState.s_log_buf_len + (List.replicate 255 98).length ≤ 256 ∧
      (wifi_log_vprintf oneByteState (List.replicate 255 98)).map
          (fun r => (sends r.events, r.state.s_log_buf_len))
        = some ([(5, [97])], 255)) ∧
    (¬ 256 < (List.replicate 256 98).length ∧
      (wifi_log_vprintf (install (initState 0) 5) (List.replicate 256 98)).map
          (fun r => (sends r.events, r.state.s_log_buf_len))
        = some ([(5, []), (5, List.replicate 256 98)], 0)) := by
  decide

/-- C9, amended: with a socket installed and a non-empty fragment, the hook
returns and (1) when length in use + fragment length is below 256 the
fragment is appended with no prior flush: the sends are the complete lines of
the appended buffer; (2) when that sum is 256 or more the bytes in use are
sent first, and a fragment shorter than 256 is then stored and scanned;
(3) a fragment of 256 bytes or more is sent directly after that flush and
nothing is buffered. -/
theorem buffering_thresholds (s : HubState) (text : List Byte)
    (hsock : s.s_remote_log_socket ≠ -1) (htext : 0 < text.length)
    (horig : s.original_log_function ≠ some Sink.wifi_log_vprintf)
    (hlen : s.s_log_buf_len ≤ LOG_BUF_SIZE) :
    ∃ (r : EmitResult) (ev0 : List Event), wifi_log_vprintf s text = some r ∧
      console_part s.original_log_function text = some ev0 ∧
      (s.s_log_buf_len + text.length < 256 →
        r.events = ev0 ++ (split_lines (buffered s ++ text)).1.map
                      (Event.send s.s_remote_log_socket) ∧
        buffered r.state = (split_lines (buffered s ++ text)).2) ∧
      (256 ≤ s.s_log_buf_len + text.length → text.length < 256 →
        r.events = ev0 ++ Event.send s.s_remote_log_socket (buffered s) ::
                      (split_lines text).1.map (Event.send s.s_remote_log_socket) ∧
        buffered r.state = (split_lines text).2) ∧
      (256 ≤ text.length →
        r.events = ev0 ++ [Event.send s.s_remote_log_socket (buffered s),
                           Event.send s.s_remote_log_socket text] ∧
        r.state.s_log_buf_len = 0) := by
  obtain ⟨r, ev0, h1, h2, _, _, _, _, h7, _⟩ := emit_spec s text horig hlen
  obtain ⟨e1, e2, e3⟩ := h7 ⟨hsock, htext⟩
  have hb : (buffered s).length = s.s_log_buf_len := take_length_of_le _ _ hlen
  refine ⟨r, ev0, h1, h2, ?_, ?_, ?_⟩
  · intro h
    have hc : (buffered s).length + text.length < LOG_BUF_SIZE := by
      rw [hb]; exact h
    rw [e1, e2]
    simp [remote_policy, hc]
  · intro h h'
    have hc : ¬ (buffered s).length + text.length < LOG_BUF_SIZE := by
      rw [hb]; simp only [LOG_BUF_SIZE]; omega
    have hc' : text.length < LOG_BUF_SIZE := h'
    rw [e1, e2]
    simp [remote_policy, hc, hc']
  · intro h
    have hc : ¬ (buffered s).length + text.length < LOG_BUF_SIZE := by
      simp only [LOG_BUF_SIZE]; omega
    have hc' : ¬ text.length < LOG_BUF_SIZE := by
      simp only [LOG_BUF_SIZE]; omega
    rw [e1, e3]
    simp [remote_policy, hc, hc']

set_option maxRecDepth 100000 in
/-- Witness of C9 (amended): one byte buffered and a fragment of 255 bytes. -/
theorem buffering_thresholds_witness :
    ∃ (r : EmitResult) (ev0 : List Event),
      wifi_log_vprintf oneByteState (List.replicate 255 98) = some r ∧
      console_part oneByteState.original_log_function (List.replicate 255 98) = some ev0 ∧
      (oneByteState.s_log_buf_len + (List.replicate 255 98).length < 256 →
        r.events = ev0 ++ (split_lines (buffered oneByteState ++ List.replicate 255 98)).1.map
                      (Event.send oneByteState.s_remote_log_socket) ∧
        buffered r.state = (split_lines (buffered oneByteState ++ List.replicate 255 98)).2) ∧
      (256 ≤ oneByteState.s_log_buf_len + (List.replicate 255 98).length →
        (List.replicate 255 98).length < 256 →
        r.events = ev0 ++ Event.send oneByteState.s_remote_log_socket (buffered oneByteState) ::
                      (split_lines (List.replicate 255 98)).1.map
                        (Event.send oneByteState.s_remote_log_socket) ∧
        buffered r.state = (split_lines (List.replicate 255 98)).2) ∧
      (256 ≤ (List.replicate 255 98).length →
        r.events = ev0 ++ [Event.send oneByteState.s_remote_log_socket (buffered oneByteState),
                           Event.send oneByteState.s_remote_log_socket (List.replicate 255 98)] ∧
        r.state.s_log_buf_len = 0) :=
  buffering_thresholds oneByteState (List.replicate 255 98) (by decide) (by decide)
    (by decide) (by decide)

/-! ## Lemmas on the receive loop -/

theorem written_append (a b : List OtaEvent) : written (a ++ b) = written a ++ written b := by
  induction a with
  | nil => rfl
  | cons e es ih => cases e <;> simp [written, ih]

theorem written_read_write_calls (sock : Int) (h : Nat) (reads : List Read) :
    written (read_write_calls sock h reads) = image_of reads := by
  induction reads with
  | nil => rfl
  | cons r rs ih => simp [read_write_calls, written, image_of] at ih ⊢; exact ih

theorem recv_calls_read_write_calls (sock : Int) (h : Nat) (reads : List Read) :
    recv_calls (read_write_calls sock h reads) = List.replicate reads.length sock := by
  induction reads with
  | nil => rfl
  | cons r rs ih =>
    simp only [recv_calls] at ih
    simp [read_write_calls, recv_calls, List.replicate_succ, ih]

theorem end_calls_read_write_calls (sock : Int) (h : Nat) (reads : List Read) :
    end_calls (read_write_calls sock h reads) = [] := by
  induction reads with
  | nil => rfl
  | cons r rs ih =>
    simp only [end_calls] at ih
    simp [read_write_calls, end_calls, ih]

theorem close_calls_read_write_calls (sock : Int) (h : Nat) (reads : List Read) :
    close_calls (read_write_calls sock h reads) = [] := by
  induction reads with
  | nil => rfl
  | cons r rs ih =>
    simp only [close_calls] at ih
    simp [read_write_calls, close_calls, ih]

theorem set_boot_calls_read_write_calls (sock : Int) (h : Nat) (reads : List Read) :
    set_boot_calls (read_write_calls sock h reads) = [] := by
  induction reads with
  | nil => rfl
  | cons r rs ih =>
    simp only [set_boot_calls] at ih
    simp [read_write_calls, set_boot_calls, ih]

theorem restart_not_mem_read_write_calls (sock : Int) (h : Nat) (reads : List Read) :
    OtaEvent.restart ∉ read_write_calls sock h reads := by
  induction reads with
  | nil => simp [read_write_calls]
  | cons r rs ih => simp [read_write_calls, ih]

theorem image_of_append (a b : List Read) : image_of (a ++ b) = image_of a ++ image_of b := by
  simp [image_of]

/-- The receive loop when every write succeeds. -/
theorem recv_loop_all_ok (sock : Int) (h : Nat) (last : RecvEnd) :
    ∀ (reads : List Read) (total : Nat), total < SIZE_T_MOD →
      (∀ r ∈ reads, r.write_ok = true) →
      recv_loop sock h last reads total
        = { events := read_write_calls sock h reads ++ [OtaEvent.recv sock],
            total := (total + (image_of reads).length) % SIZE_T_MOD,
            write_failed := false, len := last.len } := by
  intro reads
  induction reads with
  | nil =>
    intro total ht _
    simp [recv_loop, read_write_calls, image_of, Nat.mod_eq_of_lt ht]
  | cons r rs ih =>
    intro total _ hall
    have hr : r.write_ok = true := hall r (by simp)
    have hrs : ∀ x ∈ rs, x.write_ok = true := fun x hx => hall x (by simp [hx])
    have hlt : (total + r.data.length) % SIZE_T_MOD < SIZE_T_MOD :=
      Nat.mod_lt _ (by decide)
    have hlen : (image_of (r :: rs)).length = r.data.length + (image_of rs).length := by
      simp [image_of]
    simp only [recv_loop, hr, if_true, ih _ hlt hrs, read_write_calls, hlen,
      Nat.mod_add_mod, Nat.add_assoc, List.cons_append]

/-- The receive loop when the write of the read after `pre` fails. -/
theorem recv_loop_write_fails (sock : Int) (h : Nat) (last : RecvEnd) (r : Read)
    (post : List Read) (hr : r.write_ok = false) :
    ∀ (pre : List Read) (total : Nat), total < SIZE_T_MOD →
      (∀ x ∈ pre, x.write_ok = true) →
      recv_loop sock h last (pre ++ r :: post) total
        = { events := read_write_calls sock h pre ++
              [OtaEvent.recv sock, OtaEvent.ota_write h r.data,
               OtaEvent.log (OtaLog.write_failed_at
                 (int_of_size ((total + (image_of pre).length) % SIZE_T_MOD)))],
            total := (total + (image_of pre).length) % SIZE_T_MOD,
            write_failed := true, len := r.data.length } := by
  intro pre
  induction pre with
  | nil =>
    intro total ht _
    simp [recv_loop, hr, read_write_calls, image_of, Nat.mod_eq_of_lt ht]
  | cons x xs ih =>
    intro total _ hall
    have hx : x.write_ok = true := hall x (by simp)
    have hxs : ∀ y ∈ xs, y.write_ok = true := fun y hy => hall y (by simp [hy])
    have hlt : (total + x.data.length) % SIZE_T_MOD < SIZE_T_MOD :=
      Nat.mod_lt _ (by decide)
    have hlen : (image_of (x :: xs)).length = x.data.length + (image_of xs).length := by
      simp [image_of]
    rw [List.cons_append, recv_loop]
    simp only [hx, if_true]
    rw [ih _ hlt hxs]
    simp only [read_write_calls, hlen, Nat.mod_add_mod, Nat.add_assoc, List.cons_append]

/-- Either every write of a connection succeeds or there is a first one that
fails. -/
theorem reads_cases (reads : List Read) :
    (∀ r ∈ reads, r.write_ok = true) ∨
    ∃ (pre : List Read) (r : Read) (post : List Read),
      reads = pre ++ r :: post ∧ (∀ x ∈ pre, x.write_ok = true) ∧ r.write_ok = false := by
  induction reads with
  | nil => left; simp
  | cons a as ih =>
    by_cases ha : a.write_ok = true
    · rcases ih with h | ⟨pre, r, post, h1, h2, h3⟩
      · left
        intro r hr
        rcases List.mem_cons.1 hr with rfl | hr
        · exact ha
        · exact h r hr
      · right
        refine ⟨a :: pre, r, post, by simp [h1], ?_, h3⟩
        intro x hx
        rcases List.mem_cons.1 hx with rfl | hx
        · exact ha
        · exact h2 x hx
    · right
      exact ⟨[], a, as, rfl, by simp, by simpa using ha⟩

/-! ## The paths of the connection handler -/

theorem getLast?_append_cons {α : Type} (l : List α) (a : α) (m : List α) :
    (l ++ a :: m).getLast? = (a :: m).getLast? := by
  induction l with
  | nil => rfl
  | cons x xs ih =>
    cases hxs : xs ++ a :: m with
    | nil => simp at hxs
    | cons y ys => rw [List.cons_append, hxs, List.getLast?_cons_cons, ← hxs, ih]

theorem end_calls_append (a b : List OtaEvent) :
    end_calls (a ++ b) = end_calls a ++ end_calls b := by
  simp [end_calls]

theorem close_calls_append (a b : List OtaEvent) :
    close_calls (a ++ b) = close_calls a ++ close_calls b := by
  simp [close_calls]

theorem recv_calls_append (a b : List OtaEvent) :
    recv_calls (a ++ b) = recv_calls a ++ recv_calls b := by
  simp [recv_calls]

theorem set_boot_calls_append (a b : List OtaEvent) :
    set_boot_calls (a ++ b) = set_boot_calls a ++ set_boot_calls b := by
  simp [set_boot_calls]

/-- The handler when the write of the read after `pre` fails. -/
theorem handle_connection_write_fails (sock : Int) (c : OtaConn) (boot p : Partition)
    (h : Nat) (pre post : List Read) (r : Read)
    (hp : c.update_partition = some p) (hb : c.begin_handle = some h)
    (hm : c.malloc_ok = true) (hreads : c.reads = pre ++ r :: post)
    (hpre : ∀ x ∈ pre, x.write_ok = true) (hr : r.write_ok = false) :
    handle_connection sock c boot
      = { events :=
            [OtaEvent.get_next_update_partition,
             OtaEvent.log (OtaLog.writing_to_partition p), OtaEvent.ota_begin p,
             OtaEvent.malloc OTA_RECV_BUF] ++ read_write_calls sock h pre ++
            [OtaEvent.recv sock, OtaEvent.ota_write h r.data,
             OtaEvent.log (OtaLog.write_failed_at
               (int_of_size ((image_of pre).length % SIZE_T_MOD))),
             OtaEvent.free, OtaEvent.ota_end h, OtaEvent.shutdown sock, OtaEvent.close sock],
          restarted := false, boot := boot } := by
  have hl := recv_loop_write_fails sock h c.last r post hr pre 0 (by decide) hpre
  have hneg : ¬ ((r.data.length : Int) < 0) := by omega
  simp [handle_connection, hp, hb, hm, hreads, hl, hneg]

/-- The handler when everything succeeds and the peer closes. -/
theorem handle_connection_success (sock : Int) (c : OtaConn) (boot p : Partition) (h : Nat)
    (hp : c.update_partition = some p) (hb : c.begin_handle = some h)
    (hm : c.malloc_ok = true) (hall : ∀ r ∈ c.reads, r.write_ok = true)
    (hlast : c.last = RecvEnd.closed) (he : c.end_ok = true) (hs : c.set_boot_ok = true) :
    handle_connection sock c boot
      = { events :=
            [OtaEvent.get_next_update_partition,
             OtaEvent.log (OtaLog.writing_to_partition p), OtaEvent.ota_begin p,
             OtaEvent.malloc OTA_RECV_BUF] ++ read_write_calls sock h c.reads ++
            [OtaEvent.recv sock, OtaEvent.free, OtaEvent.ota_end h,
             OtaEvent.set_boot_partition p,
             OtaEvent.log (OtaLog.update_successful
               (int_of_size ((image_of c.reads).length % SIZE_T_MOD))),
             OtaEvent.shutdown sock, OtaEvent.close sock, OtaEvent.delay 1000,
             OtaEvent.restart],
          restarted := true, boot := p } := by
  have hl := recv_loop_all_ok sock h RecvEnd.closed c.reads 0 (by decide) hall
  simp [handle_connection, hp, hb, hm, hl, hlast, RecvEnd.len, he, hs]

/-- The handler when no update partition is available. -/
theorem handle_connection_no_partition (sock : Int) (c : OtaConn) (boot : Partition)
    (hp : c.update_partition = none) :
    handle_connection sock c boot
      = { events := [OtaEvent.get_next_update_partition,
                     OtaEvent.log OtaLog.no_valid_partition,
                     OtaEvent.shutdown sock, OtaEvent.close sock],
          restarted := false, boot := boot } := by
  simp [handle_connection, hp]

/-- The handler when `esp_ota_begin` fails. -/
theorem handle_connection_begin_fails (sock : Int) (c : OtaConn) (boot p : Partition)
    (hp : c.update_partition = some p) (hb : c.begin_handle = none) :
    handle_connection sock c boot
      = { events := [OtaEvent.get_next_update_partition,
                     OtaEvent.log (OtaLog.writing_to_partition p), OtaEvent.ota_begin p,
                     OtaEvent.log OtaLog.begin_failed,
                     OtaEvent.shutdown sock, OtaEvent.close sock],
          restarted := false, boot := boot } := by
  simp [handle_connection, hp, hb]

/-- The handler when the receive buffer cannot be allocated. -/
theorem handle_connection_malloc_fails (sock : Int) (c : OtaConn) (boot p : Partition)
    (h : Nat) (hp : c.update_partition = some p) (hb : c.begin_handle = some h)
    (hm : c.malloc_ok = false) :
    handle_connection sock c boot
      = { events := [OtaEvent.get_next_update_partition,
                     OtaEvent.log (OtaLog.writing_to_partition p), OtaEvent.ota_begin p,
                     OtaEvent.malloc OTA_RECV_BUF, OtaEvent.log OtaLog.failed_to_allocate,
                     OtaEvent.ota_end h, OtaEvent.shutdown sock, OtaEvent.close sock],
          restarted := false, boot := boot } := by
  simp [handle_connection, hp, hb, hm]

/-- The handler when every write succeeds and the last read is negative. -/
theorem handle_connection_recv_error (sock : Int) (c : OtaConn) (boot p : Partition) (h : Nat)
    (hp : c.update_partition = some p) (hb : c.begin_handle = some h)
    (hm : c.malloc_ok = true) (hall : ∀ r ∈ c.reads, r.write_ok = true)
    (hlast : c.last = RecvEnd.error) :
    handle_connection sock c boot
      = { events :=
            [OtaEvent.get_next_update_partition,
             OtaEvent.log (OtaLog.writing_to_partition p), OtaEvent.ota_begin p,
             OtaEvent.malloc OTA_RECV_BUF] ++ read_write_calls sock h c.reads ++
            [OtaEvent.recv sock, OtaEvent.free, OtaEvent.log OtaLog.recv_failed,
             OtaEvent.ota_end h, OtaEvent.shutdown sock, OtaEvent.close sock],
          restarted := false, boot := boot } := by
  have hl := recv_loop_all_ok sock h RecvEnd.error c.reads 0 (by decide) hall
  simp [handle_connection, hp, hb, hm, hl, hlast, RecvEnd.len]

/-- The handler when `esp_ota_end` fails after a complete upload. -/
theorem handle_connection_end_fails (sock : Int) (c : OtaConn) (boot p : Partition) (h : Nat)
    (hp : c.update_partition = some p) (hb : c.begin_handle = some h)
    (hm : c.malloc_ok = true) (hall : ∀ r ∈ c.reads, r.write_ok = true)
    (hlast : c.last = RecvEnd.closed) (he : c.end_ok = false) :
    handle_connection sock c boot
      = { events :=
            [OtaEvent.get_next_update_partition,
             OtaEvent.log (OtaLog.writing_to_partition p), OtaEvent.ota_begin p,
             OtaEvent.malloc OTA_RECV_BUF] ++ read_write_calls sock h c.reads ++
            [OtaEvent.recv sock, OtaEvent.free, OtaEvent.ota_end h,
             OtaEvent.log OtaLog.end_failed, OtaEvent.shutdown sock, OtaEvent.close sock],
          restarted := false, boot := boot } := by
  have hl := recv_loop_all_ok sock h RecvEnd.closed c.reads 0 (by decide) hall
  simp [handle_connection, hp, hb, hm, hl, hlast, RecvEnd.len, he]

/-- The handler when `esp_ota_set_boot_partition` fails after `esp_ota_end`
succeeded. -/
theorem handle_connection_set_boot_fails (sock : Int) (c : OtaConn) (boot p : Partition)
    (h : Nat) (hp : c.update_partition = some p) (hb : c.begin_handle = some h)
    (hm : c.malloc_ok = true) (hall : ∀ r ∈ c.reads, r.write_ok = true)
    (hlast : c.last = RecvEnd.closed) (he : c.end_ok = true) (hs : c.set_boot_ok = false) :
    handle_connection sock c boot
      = { events :=
            [OtaEvent.get_next_update_partition,
             OtaEvent.log (OtaLog.writing_to_partition p), OtaEvent.ota_begin p,
             OtaEvent.malloc OTA_RECV_BUF] ++ read_write_calls sock h c.reads ++
            [OtaEvent.recv sock, OtaEvent.free, OtaEvent.ota_end h,
             OtaEvent.set_boot_partition p, OtaEvent.log OtaLog.set_boot_partition_failed,
             OtaEvent.shutdown sock, OtaEvent.close sock],
          restarted := false, boot := boot } := by
  have hl := recv_loop_all_ok sock h RecvEnd.closed c.reads 0 (by decide) hall
  simp [handle_connection, hp, hb, hm, hl, hlast, RecvEnd.len, he, hs]

/-- What every path of the handler has in common. -/
theorem handle_connection_facts (sock : Int) (c : OtaConn) (boot : Partition) :
    ((handle_connection sock c boot).restarted = true ↔ clean_commit c) ∧
    (OtaEvent.restart ∈ (handle_connection sock c boot).events ↔
      (handle_connection sock c boot).restarted = true) ∧
    close_calls (handle_connection sock c boot).events = [sock] ∧
    end_calls (handle_connection sock c boot).events = opened_handle c ∧
    ((handle_connection sock c boot).restarted = false →
      (handle_connection sock c boot).events.getLast? = some (OtaEvent.close sock) ∧
      (handle_connection sock c boot).boot = boot) := by
  cases hp : c.update_partition with
  | none =>
    rw [handle_connection_no_partition sock c boot hp]
    simp [clean_commit, hp, close_calls, end_calls, opened_handle]
  | some p =>
    cases hb : c.begin_handle with
    | none =>
      rw [handle_connection_begin_fails sock c boot p hp hb]
      simp [clean_commit, hp, hb, close_calls, end_calls, opened_handle]
    | some h =>
      cases hm : c.malloc_ok with
      | false =>
        rw [handle_connection_malloc_fails sock c boot p h hp hb hm]
        simp [clean_commit, hp, hb, hm, close_calls, end_calls, opened_handle]
      | true =>
        rcases reads_cases c.reads with hall | ⟨pre, r, post, hreads, hpre, hr⟩
        · cases hlast : c.last with
          | error =>
            rw [handle_connection_recv_error sock c boot p h hp hb hm hall hlast]
            simp only [close_calls_append, end_calls_append, close_calls_read_write_calls,
              end_calls_read_write_calls, getLast?_append_cons]
            simp [clean_commit, hp, hb, hm, hlast, close_calls, end_calls, opened_handle,
              restart_not_mem_read_write_calls]
          | closed =>
            cases he : c.end_ok with
            | false =>
              rw [handle_connection_end_fails sock c boot p h hp hb hm hall hlast he]
              simp only [close_calls_append, end_calls_append, close_calls_read_write_calls,
                end_calls_read_write_calls, getLast?_append_cons]
              simp [clean_commit, hp, hb, hm, hlast, he, close_calls, end_calls, opened_handle,
                restart_not_mem_read_write_calls]
            | true =>
              cases hs : c.set_boot_ok with
              | false =>
                rw [handle_connection_set_boot_fails sock c boot p h hp hb hm hall hlast he hs]
                simp only [close_calls_append, end_calls_append, close_calls_read_write_calls,
                  end_calls_read_write_calls, getLast?_append_cons]
                simp [clean_commit, hp, hb, hm, hlast, he, hs, close_calls, end_calls,
                  opened_handle, restart_not_mem_read_write_calls]
              | true =>
                rw [handle_connection_success sock c boot p h hp hb hm hall hlast he hs]
                simp only [close_calls_append, end_calls_append, close_calls_read_write_calls,
                  end_calls_read_write_calls]
                simp [clean_commit, hp, hb, hm, hlast, he, hs, close_calls, end_calls,
                  opened_handle]
                exact hall
        · rw [handle_connection_write_fails sock c boot p h pre post r hp hb hm hreads hpre hr]
          simp only [close_calls_append, end_calls_append, close_calls_read_write_calls,
            end_calls_read_write_calls, getLast?_append_cons]
          have hnot : ¬ ∀ x ∈ c.reads, x.write_ok = true := by
            intro hall
            have := hall r (by simp [hreads])
            simp [hr] at this
          simp [clean_commit, hp, hb, hm, hnot, close_calls, end_calls, opened_handle,
            restart_not_mem_read_write_calls]

/-! ## Properties of the OTA receiver -/

theorem write_calls_append (a b : List OtaEvent) :
    write_calls (a ++ b) = write_calls a ++ write_calls b := by
  simp [write_calls]

theorem reported_totals_append (a b : List OtaEvent) :
    reported_totals (a ++ b) = reported_totals a ++ reported_totals b := by
  simp [reported_totals]

theorem write_calls_read_write_calls (sock : Int) (h : Nat) (reads : List Read) :
    write_calls (read_write_calls sock h reads) = reads.map fun r => (h, r.data) := by
  induction reads with
  | nil => rfl
  | cons r rs ih =>
    simp only [write_calls] at ih
    simp [read_write_calls, write_calls, ih]

theorem reported_totals_read_write_calls (sock : Int) (h : Nat) (reads : List Read) :
    reported_totals (read_write_calls sock h reads) = [] := by
  induction reads with
  | nil => rfl
  | cons r rs ih =>
    simp only [reported_totals] at ih
    simp [read_write_calls, reported_totals, ih]

theorem int_of_size_mod (n : Nat) : int_of_size (n % SIZE_T_MOD) = int_of_size n := by
  simp [int_of_size, SIZE_T_MOD, Nat.mod_mod]

theorem int_of_size_small (n : Nat) (h : n < 2147483648) : int_of_size n = (n : Int) := by
  have h1 : n % 4294967296 = n := Nat.mod_eq_of_lt (by omega)
  simp [int_of_size, h1, h]

theorem image_of_replicate_length (n : Nat) (r : Read) :
    (image_of (List.replicate n r)).length = n * r.data.length := by
  induction n with
  | zero => simp [image_of]
  | succ k ih =>
    have : image_of (List.replicate (k + 1) r) = r.data ++ image_of (List.replicate k r) := by
      simp [image_of, List.replicate_succ]
    rw [this, List.length_append, ih, Nat.succ_mul]
    omega

/-- C2, as stated, fails at the reported total: for an image of `2^31` bytes
delivered in `2^19` reads of 4096 bytes, with every platform call succeeding,
the total printed by the success line is `-2147483648`, not the image
length. -/
theorem reported_total_counterexample :
    (image_of connHuge.reads).length = 2147483648 ∧
    reported_totals (handle_connection 7 connHuge ota_0).events = [-2147483648] := by
  have hlen : (image_of connHuge.reads).length = 2147483648 := by
    show (image_of (List.replicate 524288 (chunk 4096 true (by decide) (by decide)))).length
      = 2147483648
    have hd : (chunk 4096 true (by decide) (by decide)).data.length = 4096 := by
      simp only [chunk, List.length_replicate]
    rw [image_of_replicate_length, hd]
  have hall : ∀ r ∈ connHuge.reads, r.write_ok = true := by
    intro r hr
    have hr2 : r ∈ List.replicate 524288 (chunk 4096 true (by decide) (by decide)) := hr
    rw [List.eq_of_mem_replicate hr2]
    rfl
  have hres := handle_connection_success 7 connHuge ota_0 ota_1 1 rfl rfl rfl hall rfl rfl rfl
  refine ⟨hlen, ?_⟩
  rw [hres, hlen]
  simp only [reported_totals_append, reported_totals_read_write_calls]
  simp only [reported_totals, List.filterMap_cons, List.filterMap_nil, List.nil_append]
  decide

/-- C2, amended: for an accepted connection with an update partition
available, begin, buffer allocation, every write, end and set-boot
succeeding, whose positive reads (each non-empty and of at most 4096 bytes)
carry `image` and are followed by a zero-length read: there is one
`esp_ota_write` per read, on the handle `esp_ota_begin` returned for the
partition, with that read's bytes, so the bytes written into the transaction
are `image` in arrival order; `esp_ota_end` is called on that handle; the
total printed is `(int)` of the image length, which is the image length for
an image shorter than `2^31` bytes; set-boot is called once, with the
partition written, which becomes the boot partition; the last call is the
restart and the task ends restarted. -/
theorem full_image_commits (sock : Int) (c : OtaConn) (boot p : Partition) (h : Nat)
    (image : List Byte) (listen_sock : Int) (rest : List OtaAttempt)
    (hsock : 0 ≤ sock)
    (hp : c.update_partition = some p) (hb : c.begin_handle = some h)
    (hm : c.malloc_ok = true) (hall : ∀ r ∈ c.reads, r.write_ok = true)
    (himage : image_of c.reads = image)
    (hlast : c.last = RecvEnd.closed) (he : c.end_ok = true) (hs : c.set_boot_ok = true) :
    write_calls (handle_connection sock c boot).events
      = c.reads.map (fun r => (h, r.data)) ∧
    written (handle_connection sock c boot).events = image ∧
    OtaEvent.ota_begin p ∈ (handle_connection sock c boot).events ∧
    end_calls (handle_connection sock c boot).events = [h] ∧
    reported_totals (handle_connection sock c boot).events = [int_of_size image.length] ∧
    (image.length < 2147483648 →
      reported_totals (handle_connection sock c boot).events = [(image.length : Int)]) ∧
    set_boot_calls (handle_connection sock c boot).events = [p] ∧
    (handle_connection sock c boot).boot = p ∧
    (handle_connection sock c boot).restarted = true ∧
    (handle_connection sock c boot).events.getLast? = some OtaEvent.restart ∧
    (ota_accept_loop listen_sock (⟨sock, c⟩ :: rest) boot).ending = TaskEnd.restarted ∧
    (ota_accept_loop listen_sock (⟨sock, c⟩ :: rest) boot).boot = p := by
  have hres := handle_connection_success sock c boot p h hp hb hm hall hlast he hs
  have hns : ¬ sock < 0 := by omega
  have htot : reported_totals (handle_connection sock c boot).events
      = [int_of_size image.length] := by
    rw [hres, himage, int_of_size_mod]
    simp only [reported_totals_append, reported_totals_read_write_calls]
    simp [reported_totals]
  refine ⟨?_, ?_, ?_, ?_, htot, ?_, ?_, ?_, ?_, ?_, ?_, ?_⟩
  · rw [hres]
    simp only [write_calls_append, write_calls_read_write_calls]
    simp [write_calls]
  · rw [hres]
    simp only [written_append, written_read_write_calls, himage]
    simp [written]
  · rw [hres]; simp
  · rw [hres]
    simp only [end_calls_append, end_calls_read_write_calls]
    simp [end_calls]
  · intro hsmall
    rw [htot, int_of_size_small _ hsmall]
  · rw [hres]
    simp only [set_boot_calls_append, set_boot_calls_read_write_calls]
    simp [set_boot_calls]
  · rw [hres]
  · rw [hres]
  · rw [hres]
    rw [getLast?_append_cons]
    rfl
  · simp [ota_accept_loop, hns, hres]
  · simp [ota_accept_loop, hns, hres]

/-- Witness of C2 (amended): 10,000 bytes delivered in three reads on socket
7; the total printed is 10000. -/
theorem full_image_commits_witness :
    (image_of conn10k.reads).length = 10000 ∧
    reported_totals (handle_connection 7 conn10k ota_0).events = [10000] ∧
    (write_calls (handle_connection 7 conn10k ota_0).events
      = conn10k.reads.map (fun r => (1, r.data)) ∧
    written (handle_connection 7 conn10k ota_0).events = image_of conn10k.reads ∧
    OtaEvent.ota_begin ota_1 ∈ (handle_connection 7 conn10k ota_0).events ∧
    end_calls (handle_connection 7 conn10k ota_0).events = [1] ∧
    reported_totals (handle_connection 7 conn10k ota_0).events
      = [int_of_size (image_of conn10k.reads).length] ∧
    ((image_of conn10k.reads).length < 2147483648 →
      reported_totals (handle_connection 7 conn10k ota_0).events
        = [((image_of conn10k.reads).length : Int)]) ∧
    set_boot_calls (handle_connection 7 conn10k ota_0).events = [ota_1] ∧
    (handle_connection 7 conn10k ota_0).boot = ota_1 ∧
    (handle_connection 7 conn10k ota_0).restarted = true ∧
    (handle_connection 7 conn10k ota_0).events.getLast? = some OtaEvent.restart ∧
    (ota_accept_loop 3 (⟨7, conn10k⟩ :: []) ota_0).ending = TaskEnd.restarted ∧
    (ota_accept_loop 3 (⟨7, conn10k⟩ :: []) ota_0).boot = ota_1) :=
  have hlen : (image_of conn10k.reads).length = 10000 := by
    simp only [image_of, conn10k, chunk, List.map_cons, List.map_nil, List.flatten_cons,
      List.flatten_nil, List.length_append, List.length_replicate, List.length_nil]
  have hthm := full_image_commits 7 conn10k ota_0 ota_1 1 (image_of conn10k.reads) 3 []
    (by decide) rfl rfl rfl (by decide) rfl rfl rfl rfl
  ⟨hlen, by
    have h6 := hthm.2.2.2.2.2.1 (by rw [hlen]; decide)
    rw [h6, hlen]
    rfl, hthm⟩

/-- C3: when the write of some read fails (after any number of reads whose
writes succeeded), the handler calls `recv` for no later read, never calls
set-boot, leaves the boot partition as it was, does not restart, closes the
socket once as its last call, and the accept loop goes on with the next
connection. -/
theorem write_failure_aborts (sock : Int) (c : OtaConn) (boot p : Partition) (h : Nat)
    (pre post : List Read) (r : Read) (listen_sock : Int) (rest : List OtaAttempt)
    (hsock : 0 ≤ sock)
    (hp : c.update_partition = some p) (hb : c.begin_handle = some h)
    (hm : c.malloc_ok = true) (hreads : c.reads = pre ++ r :: post)
    (hpre : ∀ x ∈ pre, x.write_ok = true) (hr : r.write_ok = false) :
    recv_calls (handle_connection sock c boot).events = List.replicate (pre.length + 1) sock ∧
    written (handle_connection sock c boot).events = image_of pre ++ r.data ∧
    set_boot_calls (handle_connection sock c boot).events = [] ∧
    (handle_connection sock c boot).boot = boot ∧
    (handle_connection sock c boot).restarted = false ∧
    OtaEvent.restart ∉ (handle_connection sock c boot).events ∧
    close_calls (handle_connection sock c boot).events = [sock] ∧
    (handle_connection sock c boot).events.getLast? = some (OtaEvent.close sock) ∧
    ota_accept_loop listen_sock (⟨sock, c⟩ :: rest) boot
      = { events := [OtaEvent.accept listen_sock, OtaEvent.log OtaLog.client_connected] ++
                      (handle_connection sock c boot).events ++
                      (ota_accept_loop listen_sock rest boot).events,
          ending := (ota_accept_loop listen_sock rest boot).ending,
          boot := (ota_accept_loop listen_sock rest boot).boot } := by
  have hres := handle_connection_write_fails sock c boot p h pre post r hp hb hm hreads hpre hr
  have hns : ¬ sock < 0 := by omega
  refine ⟨?_, ?_, ?_, ?_, ?_, ?_, ?_, ?_, ?_⟩
  · rw [hres]
    simp only [recv_calls_append, recv_calls_read_write_calls]
    simp [recv_calls, List.replicate_succ']
  · rw [hres]
    simp only [written_append, written_read_write_calls]
    simp [written]
  · rw [hres]
    simp only [set_boot_calls_append, set_boot_calls_read_write_calls]
    simp [set_boot_calls]
  · rw [hres]
  · rw [hres]
  · rw [hres]
    simp [restart_not_mem_read_write_calls]
  · rw [hres]
    simp only [close_calls_append, close_calls_read_write_calls]
    simp [close_calls]
  · rw [hres]
    rw [getLast?_append_cons]
    rfl
  · simp [ota_accept_loop, hns, hres]

/-- Witness of C3: the write of the second of three reads fails, at byte
offset 4096. -/
theorem write_failure_aborts_witness :
    recv_calls (handle_connection 7 connWriteFails ota_0).events = List.replicate (1 + 1) 7 ∧
    written (handle_connection 7 connWriteFails ota_0).events
      = image_of [chunk 4096 true (by decide) (by decide)]
          ++ (chunk 4096 false (by decide) (by decide)).data ∧
    set_boot_calls (handle_connection 7 connWriteFails ota_0).events = [] ∧
    (handle_connection 7 connWriteFails ota_0).boot = ota_0 ∧
    (handle_connection 7 connWriteFails ota_0).restarted = false ∧
    OtaEvent.restart ∉ (handle_connection 7 connWriteFails ota_0).events ∧
    close_calls (handle_connection 7 connWriteFails ota_0).events = [7] ∧
    (handle_connection 7 connWriteFails ota_0).events.getLast? = some (OtaEvent.close 7) ∧
    ota_accept_loop 3 (⟨7, connWriteFails⟩ :: [⟨8, conn10k⟩]) ota_0
      = { events := [OtaEvent.accept 3, OtaEvent.log OtaLog.client_connected] ++
                      (handle_connection 7 connWriteFails ota_0).events ++
                      (ota_accept_loop 3 [⟨8, conn10k⟩] ota_0).events,
          ending := (ota_accept_loop 3 [⟨8, conn10k⟩] ota_0).ending,
          boot := (ota_accept_loop 3 [⟨8, conn10k⟩] ota_0).boot } :=
  write_failure_aborts 7 connWriteFails ota_0 ota_1 1
    [chunk 4096 true (by decide) (by decide)] [chunk 1808 true (by decide) (by decide)]
    (chunk 4096 false (by decide) (by decide)) 3 [⟨8, conn10k⟩] (by decide)
    rfl rfl rfl rfl (by decide) rfl

/-- C8: for one accepted connection the handler reaches the restart exactly
when an update partition was available, begin succeeded, the buffer was
allocated, every write succeeded, the last read was a zero-length one, end
succeeded and set-boot succeeded; a restart call is in the trace exactly
then. In every other case the socket is closed once, as the last call, and
the accept loop goes on with the next connection. -/
theorem restart_iff_clean_commit (sock : Int) (c : OtaConn) (boot : Partition)
    (listen_sock : Int) (rest : List OtaAttempt) (hsock : 0 ≤ sock) :
    ((handle_connection sock c boot).restarted = true ↔
      (c.update_partition.isSome = true ∧ c.begin_handle.isSome = true ∧
        c.malloc_ok = true ∧ (∀ r ∈ c.reads, r.write_ok = true) ∧
        c.last = RecvEnd.closed ∧ c.end_ok = true ∧ c.set_boot_ok = true)) ∧
    (OtaEvent.restart ∈ (handle_connection sock c boot).events ↔
      (handle_connection sock c boot).restarted = true) ∧
    ((handle_connection sock c boot).restarted = false →
      close_calls (handle_connection sock c boot).events = [sock] ∧
      (handle_connection sock c boot).events.getLast? = some (OtaEvent.close sock) ∧
      ota_accept_loop listen_sock (⟨sock, c⟩ :: rest) boot
        = { events := [OtaEvent.accept listen_sock, OtaEvent.log OtaLog.client_connected] ++
                        (handle_connection sock c boot).events ++
                        (ota_accept_loop listen_sock rest boot).events,
            ending := (ota_accept_loop listen_sock rest boot).ending,
            boot := (ota_accept_loop listen_sock rest boot).boot }) := by
  obtain ⟨f1, f2, f3, _, f5⟩ := handle_connection_facts sock c boot
  refine ⟨f1, f2, ?_⟩
  intro hnr
  obtain ⟨g1, g2⟩ := f5 hnr
  have hns : ¬ sock < 0 := by omega
  refine ⟨f3, g1, ?_⟩
  simp [ota_accept_loop, hns, hnr, g2]

/-- Witness of C8: set-boot fails after a successful end; no restart, and the
next connection is served. -/
theorem restart_iff_clean_commit_witness :
    (handle_connection 7 connSetBootFails ota_0).restarted = false ∧
    (((handle_connection 7 connSetBootFails ota_0).restarted = true ↔
      (connSetBootFails.update_partition.isSome = true ∧
        connSetBootFails.begin_handle.isSome = true ∧
        connSetBootFails.malloc_ok = true ∧
        (∀ r ∈ connSetBootFails.reads, r.write_ok = true) ∧
        connSetBootFails.last = RecvEnd.closed ∧ connSetBootFails.end_ok = true ∧
        connSetBootFails.set_boot_ok = true)) ∧
    (OtaEvent.restart ∈ (handle_connection 7 connSetBootFails ota_0).events ↔
      (handle_connection 7 connSetBootFails ota_0).restarted = true) ∧
    ((handle_connection 7 connSetBootFails ota_0).restarted = false →
      close_calls (handle_connection 7 connSetBootFails ota_0).events = [7] ∧
      (handle_connection 7 connSetBootFails ota_0).events.getLast?
        = some (OtaEvent.close 7) ∧
      ota_accept_loop 3 (⟨7, connSetBootFails⟩ :: [⟨8, conn10k⟩]) ota_0
        = { events := [OtaEvent.accept 3, OtaEvent.log OtaLog.client_connected] ++
                        (handle_connection 7 connSetBootFails ota_0).events ++
                        (ota_accept_loop 3 [⟨8, conn10k⟩] ota_0).events,
            ending := (ota_accept_loop 3 [⟨8, conn10k⟩] ota_0).ending,
            boot := (ota_accept_loop 3 [⟨8, conn10k⟩] ota_0).boot })) :=
  ⟨by decide, restart_iff_clean_commit 7 connSetBootFails ota_0 3 [⟨8, conn10k⟩] (by decide)⟩

/-- C10: on every path of the handler on which begin succeeded, `esp_ota_end`
is called exactly once, on the handle begin returned; when no partition was
available or begin failed it is never called; and on every path the
connection socket is closed exactly once. -/
theorem end_once_close_once (sock : Int) (c : OtaConn) (boot : Partition) :
    (∀ (p : Partition) (h : Nat), c.update_partition = some p → c.begin_handle = some h →
      end_calls (handle_connection sock c boot).events = [h]) ∧
    ((c.update_partition = none ∨ c.begin_handle = none) →
      end_calls (handle_connection sock c boot).events = []) ∧
    close_calls (handle_connection sock c boot).events = [sock] := by
  obtain ⟨_, _, f3, f4, _⟩ := handle_connection_facts sock c boot
  refine ⟨?_, ?_, f3⟩
  · intro p h hp hb
    rw [f4]; simp [opened_handle, hp, hb]
  · intro hn
    rw [f4]
    rcases hn with hn | hn
    · simp [opened_handle, hn]
    · cases hp : c.update_partition <;> simp [opened_handle, hn]

/-- Witness of C10: the connection whose second write fails. -/
theorem end_once_close_once_witness :
    (∀ (p : Partition) (h : Nat), connWriteFails.update_partition = some p →
      connWriteFails.begin_handle = some h →
      end_calls (handle_connection 7 connWriteFails ota_0).events = [h]) ∧
    ((connWriteFails.update_partition = none ∨ connWriteFails.begin_handle = none) →
      end_calls (handle_connection 7 connWriteFails ota_0).events = []) ∧
    close_calls (handle_connection 7 connWriteFails ota_0).events = [7] ∧
    end_calls (handle_connection 7 connWriteFails ota_0).events = [1] :=
  ⟨(end_once_close_once 7 connWriteFails ota_0).1, (end_once_close_once 7 connWriteFails ota_0).2.1,
   (end_once_close_once 7 connWriteFails ota_0).2.2,
   (end_once_close_once 7 connWriteFails ota_0).1 ota_1 1 rfl rfl⟩

/-! ## The accept loops -/

end LocalOTA
